import Mathlib

/-!
# The sorted-table reader of `table/table.cc`

A shallow embedding of `Table::Open`, `Table::ReadMeta`, `Table::ReadFilter`,
`Table::BlockReader`, `Table::InternalGet` and `Table::ApproximateOffsetOf`.

The C++ code mutates a shared block cache, reads a file and calls a sink.  Here
these effects are explicit: every operation takes and returns a `Sys`, which
holds the state of the cache and a chronological log of the effects performed
(file reads, cache calls, block allocations and deletions, sink calls).

`table.cc` consumes several collaborators that it does not define (status
values, the block handle and footer codecs, the block load primitive, the
block cursor, the filter reader, the cache).  The ones whose behaviour the
spec describes are modelled here and marked as such; the codecs and the block
load primitive, on which the spec is silent, are parameters (`External`).
-/

namespace leveldb

/-! ## Data model -/

/-- A byte string (`Slice`, `std::string`): the list of its bytes, each a natural below 256. -/
abbrev Slice := List Nat

/-- Modelled from the spec: `Status` (leveldb/status.h is not in src). The taxonomy of section 7:
success, or an error kind with a message. -/
inductive Status where
  | OK
  | NotFound (msg : String)
  | Corruption (msg : String)
  | NotSupported (msg : String)
  | InvalidArgument (msg : String)
  | IOError (msg : String)
deriving DecidableEq, Repr

/-- The test `Status::ok()`. -/
def Status.ok : Status → Bool
  | .OK => true
  | _ => false

/-- The test `Status::IsCorruption()`. -/
def Status.IsCorruption : Status → Bool
  | .Corruption _ => true
  | _ => false

/-- The type `BlockHandle`: the `(offset, size)` locator of a byte range of the file (both
`uint64_t`). -/
structure BlockHandle where
  offset : Nat
  size : Nat
deriving DecidableEq, Repr

/-- The type `Footer`: the decoded trailer, with the handles of the metaindex and index blocks. -/
structure Footer where
  metaindex_handle : BlockHandle
  index_handle : BlockHandle
deriving DecidableEq, Repr

/-- The type `BlockContents`: what the block load primitive hands back. -/
structure BlockContents where
  data : Slice
  cachable : Bool
  heap_allocated : Bool
deriving DecidableEq, Repr

/-- The type `ReadOptions`, with the two options the read path recognises. -/
structure ReadOptions where
  verify_checksums : Bool
  fill_cache : Bool
deriving DecidableEq, Repr

/-- The default-constructed `ReadOptions opt;`. -/
def ReadOptions.default : ReadOptions :=
  { verify_checksums := false, fill_cache := true }

/-- The function `Comparator::Compare`: negative, zero or positive. -/
abbrev Comparator := Slice → Slice → Int

/-- Modelled from the spec: `BytewiseComparator()` (util/comparator.cc is not in src), the
lexicographic order on byte strings. -/
def BytewiseComparator : Comparator
  | [], [] => 0
  | [], _ :: _ => -1
  | _ :: _, [] => 1
  | a :: as, b :: bs =>
    if a < b then -1 else if b < a then 1 else BytewiseComparator as bs

/-- The type `FilterPolicy`: only its `Name()` is used by the reader. -/
structure FilterPolicy where
  Name : Slice
deriving DecidableEq, Repr

/-- The object `FilterBlockReader(policy, contents)`: a filter reader bound to a policy and the
loaded bytes. -/
structure FilterBlockReader where
  policy : Option FilterPolicy
  contents : Slice
deriving DecidableEq, Repr

/-- Modelled from the spec: `Block` (table/block.h is not in src). A loaded block is a sequence of
key/value entries; `status` is OK for a well-formed block and the error its cursors carry
otherwise; `size` is the charge reported by `block->size()`. -/
structure Block where
  entries : List (Slice × Slice)
  status : Status
  size : Nat
deriving DecidableEq, Repr

/-- Modelled from the spec: `Cache::Handle` (leveldb/cache.h is not in src). A reference to a cache
entry: its key and the block stored under it. -/
structure Handle where
  key : Slice
  value : Block
deriving DecidableEq, Repr

/-- Modelled from the spec: `Cache` (leveldb/cache.h is not in src). A keyed store of blocks and the
counter behind `NewId`. Eviction is outside the model: an entry stays until it is replaced. -/
structure Cache where
  table : List (Slice × Block)
  last_id : Nat
deriving DecidableEq, Repr

/-- The effects `table.cc` performs, as they are logged. -/
inductive Event where
  | FileRead (offset n : Nat)
  | ReadBlock (handle : BlockHandle)
  | NewBlock (block : Block)
  | DeleteBlock (block : Block)
  | CacheNewId (id : Nat)
  | CacheLookup (key : Slice) (hit : Bool)
  | CacheInsert (key : Slice) (block : Block) (charge : Nat)
  | CacheRelease (handle : Handle)
  | BlockReader (index_value : Slice)
  | Saver (key value : Slice)
  | Printf (msg : String)
deriving DecidableEq, Repr

/-- The state every operation threads: the shared block cache and the log of effects so far. -/
structure Sys where
  cache : Cache
  log : List Event
deriving DecidableEq, Repr

/-- Append one effect to the log. -/
def Sys.emit (sys : Sys) (e : Event) : Sys :=
  { sys with log := sys.log ++ [e] }

/-- A cleanup registered on a cursor: the function and its two arguments. -/
inductive Cleanup where
  | DeleteBlock (block : Block)
  | ReleaseBlock (handle : Handle)
deriving DecidableEq, Repr

/-- Modelled from the spec: `Iterator` (leveldb/iterator.h and table/block.cc are not in src). A
cursor over the entries of a block: the entry it stands on (none when not `Valid()`), its status,
and the cleanups to run when it is discarded. -/
structure Iterator where
  entries : List (Slice × Slice)
  comparator : Comparator
  current : Option (Slice × Slice)
  status : Status
  cleanup : List Cleanup

/-- The type `RandomAccessFile`: positioned reads. -/
structure RandomAccessFile where
  Read : Nat → Nat → Status × Slice

/-- The type `Options`, with the fields the reader uses. `block_cache` records whether
`options.block_cache` is non-null; the cache object itself lives in `Sys`. -/
structure Options where
  comparator : Comparator
  paranoid_checks : Bool
  block_cache : Bool
  filter_policy : Option FilterPolicy

/-- The state `Table::Rep` of an open table. -/
structure Rep where
  options : Options
  status : Status
  file : RandomAccessFile
  cache_id : Nat
  filter : Option FilterBlockReader
  filter_data : Option Slice
  metaindex_handle : BlockHandle
  index_block : Block

/-- The type `Table`: a handle on its `Rep`. -/
structure Table where
  rep_ : Rep

/-- The collaborators of `table.cc` on which the spec gives an interface only: the trailer length
`Footer::kEncodedLength`, `Footer::DecodeFrom`, `BlockHandle::DecodeFrom`, the block load primitive
`ReadBlock`, the constructor `Block(contents)` and `FilterBlockReader::KeyMayMatch`. -/
structure External where
  kEncodedLength : Nat
  FooterDecodeFrom : Slice → Status × Footer
  BlockHandleDecodeFrom : Slice → Status × BlockHandle
  ReadBlock : RandomAccessFile → ReadOptions → BlockHandle → Status × BlockContents
  NewBlock : BlockContents → Block
  KeyMayMatch : FilterBlockReader → Nat → Slice → Bool

/-! ## Collaborators modelled from the spec -/

/-- Modelled from the spec: `EncodeFixed64` (util/coding.h is not in src). The 8 raw bytes of a
64-bit value, least significant first. -/
def EncodeFixed64 (value : Nat) : Slice :=
  (List.range 8).map (fun i => value / 256 ^ i % 256)

/-- Modelled from the spec: `Cache::NewId` (leveldb/cache.h is not in src), a fresh namespace id. -/
def Cache.NewId (c : Cache) : Nat × Cache :=
  let id := (c.last_id + 1) % 2 ^ 64
  (id, { c with last_id := id })

/-- Modelled from the spec: `Cache::Lookup` (leveldb/cache.h is not in src), the handle of the entry
stored under `key`, if any. -/
def Cache.Lookup (c : Cache) (key : Slice) : Option Handle :=
  (c.table.lookup key).map (fun b => { key := key, value := b })

/-- Modelled from the spec: `Cache::Insert` (leveldb/cache.h is not in src): store `value` under
`key`, replacing an older entry of that key, and return a handle on the new entry. -/
def Cache.Insert (c : Cache) (key : Slice) (value : Block) : Handle × Cache :=
  ({ key := key, value := value },
   { c with table := (key, value) :: c.table.filter (fun e => e.1 != key) })

/-- Modelled from the spec: `Cache::Value` (leveldb/cache.h is not in src). -/
def Cache.Value (h : Handle) : Block := h.value

/-- Modelled from the spec: `NewErrorIterator(s)` (table/iterator.cc is not in src): an always
invalid cursor carrying `s`. -/
def NewErrorIterator (s : Status) : Iterator :=
  { entries := [], comparator := fun _ _ => 0, current := none, status := s, cleanup := [] }

/-- Modelled from the spec: `Block::NewIterator` (table/block.cc is not in src): a cursor over the
block, not yet positioned; an error cursor when the block is malformed. -/
def Block.NewIterator (b : Block) (cmp : Comparator) : Iterator :=
  if b.status.ok then
    { entries := b.entries, comparator := cmp, current := none, status := Status.OK, cleanup := [] }
  else NewErrorIterator b.status

/-- Modelled from the spec: `Iterator::Seek` (table/block.cc is not in src): stand on the first
entry whose key is at or after `target`; invalid when there is none. -/
def Iterator.Seek (it : Iterator) (target : Slice) : Iterator :=
  { it with current := it.entries.find? (fun e => decide (0 ≤ it.comparator e.1 target)) }

/-- Modelled from the spec: `Iterator::Valid`. -/
def Iterator.Valid (it : Iterator) : Bool := it.current.isSome

/-- Modelled from the spec: `Iterator::key` (only meaningful when `Valid`). -/
def Iterator.key (it : Iterator) : Slice :=
  match it.current with
  | some e => e.1
  | none => []

/-- Modelled from the spec: `Iterator::value` (only meaningful when `Valid`). -/
def Iterator.value (it : Iterator) : Slice :=
  match it.current with
  | some e => e.2
  | none => []

/-- Modelled from the spec: `Iterator::RegisterCleanup`. -/
def Iterator.RegisterCleanup (it : Iterator) (c : Cleanup) : Iterator :=
  { it with cleanup := it.cleanup ++ [c] }

/-! ## `table.cc` -/

/-- The cleanup `DeleteBlock(arg, ignored)`: `delete reinterpret_cast<Block*>(arg)`. -/
def DeleteBlock (block : Block) (sys : Sys) : Sys :=
  sys.emit (Event.DeleteBlock block)

/-- The deleter `DeleteCachedBlock(key, value)`: the eviction deleter handed to `Insert`. -/
def DeleteCachedBlock (_key : Slice) (value : Block) (sys : Sys) : Sys :=
  sys.emit (Event.DeleteBlock value)

/-- The cleanup `ReleaseBlock(arg, h)`: `cache->Release(handle)`. -/
def ReleaseBlock (h : Handle) (sys : Sys) : Sys :=
  sys.emit (Event.CacheRelease h)

/-- Run one registered cleanup. -/
def Cleanup.run : Cleanup → Sys → Sys
  | .DeleteBlock b, sys => leveldb.DeleteBlock b sys
  | .ReleaseBlock h, sys => leveldb.ReleaseBlock h sys

/-- The effect a cleanup logs when it runs. -/
def Cleanup.event : Cleanup → Event
  | .DeleteBlock b => Event.DeleteBlock b
  | .ReleaseBlock h => Event.CacheRelease h

/-- Modelled from the spec: `Iterator::~Iterator` (`delete iter`): every registered cleanup runs,
once, in registration order. -/
def Iterator.delete (it : Iterator) (sys : Sys) : Sys :=
  it.cleanup.foldl (fun s c => c.run s) sys

/-- The read options `Open`, `ReadMeta` and `ReadFilter` build:
`ReadOptions opt; if (paranoid_checks) opt.verify_checksums = true;`. -/
def metaReadOptions (paranoid_checks : Bool) : ReadOptions :=
  if paranoid_checks then { ReadOptions.default with verify_checksums := true }
  else ReadOptions.default

/-- The call `ReadBlock(file, opt, handle, &contents)`, logged. -/
def ReadBlock (ext : External) (file : RandomAccessFile) (opt : ReadOptions) (handle : BlockHandle)
    (sys : Sys) : (Status × BlockContents) × Sys :=
  (ext.ReadBlock file opt handle, sys.emit (Event.ReadBlock handle))

/-- The allocation `new Block(contents)`, logged. -/
def NewBlock (ext : External) (contents : BlockContents) (sys : Sys) : Block × Sys :=
  (ext.NewBlock contents, sys.emit (Event.NewBlock (ext.NewBlock contents)))

/-- The function `Table::ReadFilter`. -/
def ReadFilter (ext : External) (table : Table) (filter_handle_value : Slice) (sys : Sys) :
    Table × Sys :=
  let v := filter_handle_value
  let d := ext.BlockHandleDecodeFrom v
  if !d.1.ok then (table, sys)
  else
    let opt := metaReadOptions table.rep_.options.paranoid_checks
    let r := ReadBlock ext table.rep_.file opt d.2 sys
    if !r.1.1.ok then (table, r.2)
    else
      let block := r.1.2
      let filter_data := if block.heap_allocated then some block.data else table.rep_.filter_data
      ({ rep_ := { table.rep_ with
                    filter_data := filter_data,
                    filter := some { policy := table.rep_.options.filter_policy,
                                     contents := block.data } } }, r.2)

/-- The key `"filter."` that `ReadMeta` prepends to the policy name. -/
def filterKeyLead : Slice := [102, 105, 108, 116, 101, 114, 46]

/-- The function `Table::ReadMeta`. -/
def ReadMeta (ext : External) (table : Table) (footer : Footer) (sys : Sys) : Table × Sys :=
  match table.rep_.options.filter_policy with
  | none => (table, sys)
  | some policy =>
    let opt := metaReadOptions table.rep_.options.paranoid_checks
    let r := ReadBlock ext table.rep_.file opt footer.metaindex_handle sys
    if !r.1.1.ok then (table, r.2)
    else
      let m := NewBlock ext r.1.2 r.2
      let meta := m.1
      let key := filterKeyLead ++ policy.Name
      let iter := (meta.NewIterator BytewiseComparator).Seek key
      let t := if iter.Valid && iter.key == key then ReadFilter ext table iter.value m.2
               else (table, m.2)
      let sys := iter.delete t.2
      (t.1, sys.emit (Event.DeleteBlock meta))

/-- The success branch of `Table::Open`: build the `Rep`, mint the cache id, wrap it in a `Table`
and call `ReadMeta`. -/
def openTable (ext : External) (options : Options) (file : RandomAccessFile) (footer : Footer)
    (index_block : Block) (sys : Sys) : Table × Sys :=
  let id : Nat × Sys := if options.block_cache then
      let n := sys.cache.NewId
      (n.1, { sys with cache := n.2 }.emit (Event.CacheNewId n.1))
    else (0, sys)
  let rep : Rep :=
    { options := options, status := Status.OK, file := file,
      metaindex_handle := footer.metaindex_handle, index_block := index_block,
      cache_id := id.1, filter_data := none, filter := none }
  ReadMeta ext { rep_ := rep } footer id.2

/-- The function `Table::Open`: the status, the output `*table` (none for NULL) and the state
afterwards. -/
def Open (ext : External) (options : Options) (file : RandomAccessFile) (size : Nat) (sys : Sys) :
    Status × Option Table × Sys :=
  if size < ext.kEncodedLength then
    (Status.Corruption "file is too short to be an sstable", none, sys)
  else
    let sys := sys.emit (Event.FileRead (size - ext.kEncodedLength) ext.kEncodedLength)
    let rd := file.Read (size - ext.kEncodedLength) ext.kEncodedLength
    if !rd.1.ok then (rd.1, none, sys)
    else
      let fd := ext.FooterDecodeFrom rd.2
      if !fd.1.ok then (fd.1, none, sys)
      else
        let footer := fd.2
        let opt := metaReadOptions options.paranoid_checks
        let r := ReadBlock ext file opt footer.index_handle sys
        let s := r.1.1
        let ib : Option Block × Sys := if s.ok then
            let nb := NewBlock ext r.1.2 r.2
            (some nb.1, nb.2)
          else (none, r.2)
        match s.ok, ib.1 with
        | true, some index_block =>
          let t := openTable ext options file footer index_block ib.2
          (s, some t.1, t.2)
        | _, some index_block => (s, none, ib.2.emit (Event.DeleteBlock index_block))
        | _, none => (s, none, ib.2)

/-- The 16-byte cache key of `BlockReader`: `EncodeFixed64(cache_id)` then
`EncodeFixed64(handle.offset())`. -/
def cacheKey (cache_id offset : Nat) : Slice :=
  EncodeFixed64 cache_id ++ EncodeFixed64 offset

/-- The miss path of `BlockReader`: `ReadBlock`, then `new Block(contents)` when the read
succeeded. Returns the status, the block (none for NULL), the contents and the state. -/
def readAndBuild (ext : External) (table : Table) (options : ReadOptions) (handle : BlockHandle)
    (sys : Sys) : Status × Option Block × BlockContents × Sys :=
  let r := ReadBlock ext table.rep_.file options handle sys
  if r.1.1.ok then
    let nb := NewBlock ext r.1.2 r.2
    (r.1.1, some nb.1, r.1.2, nb.2)
  else (r.1.1, none, r.1.2, r.2)

/-- The first half of `Table::BlockReader` (up to `Iterator* iter;`): the status `s`, the block
(none for NULL), the cache handle (none for NULL) and the state. -/
def fetchBlock (ext : External) (table : Table) (options : ReadOptions) (index_value : Slice)
    (sys : Sys) : Status × Option Block × Option Handle × Sys :=
  let block_cache := table.rep_.options.block_cache
  let d := ext.BlockHandleDecodeFrom index_value
  let s := d.1
  let handle := d.2
  if s.ok then
    if block_cache then
      let key := cacheKey table.rep_.cache_id handle.offset
      let cache_handle := sys.cache.Lookup key
      let sys := sys.emit (Event.CacheLookup key cache_handle.isSome)
      match cache_handle with
      | some h => (s, some (Cache.Value h), some h, sys)
      | none =>
        let rb := readAndBuild ext table options handle sys
        match rb.2.1 with
        | some block =>
          if rb.2.2.1.cachable && options.fill_cache then
            let ins := rb.2.2.2.cache.Insert key block
            (rb.1, some block, some ins.1,
              { rb.2.2.2 with cache := ins.2 }.emit (Event.CacheInsert key block block.size))
          else (rb.1, some block, none, rb.2.2.2)
        | none => (rb.1, none, none, rb.2.2.2)
    else
      let rb := readAndBuild ext table options handle sys
      (rb.1, rb.2.1, none, rb.2.2.2)
  else (s, none, none, sys)

/-- The function `Table::BlockReader`: turn an index value (an encoded `BlockHandle`) into a
cursor over the block it locates. -/
def BlockReader (ext : External) (table : Table) (options : ReadOptions) (index_value : Slice)
    (sys : Sys) : Iterator × Sys :=
  let f := fetchBlock ext table options index_value (sys.emit (Event.BlockReader index_value))
  match f.2.1 with
  | some block =>
    let iter := block.NewIterator table.rep_.options.comparator
    match f.2.2.1 with
    | none => (iter.RegisterCleanup (Cleanup.DeleteBlock block), f.2.2.2)
    | some cache_handle => (iter.RegisterCleanup (Cleanup.ReleaseBlock cache_handle), f.2.2.2)
  | none => (NewErrorIterator f.1, f.2.2.2)

/-- The sink call `(*saver)(arg, key, value)`, logged. -/
def saver (key value : Slice) (sys : Sys) : Sys :=
  sys.emit (Event.Saver key value)

/-- The test of `InternalGet` that skips the block fetch:
`filter != NULL && handle.DecodeFrom(&handle_value).ok() && !filter->KeyMayMatch(handle.offset(), k)`. -/
def filterRejects (ext : External) (table : Table) (handle_value k : Slice) : Bool :=
  match table.rep_.filter with
  | some filter =>
    (ext.BlockHandleDecodeFrom handle_value).1.ok &&
      !ext.KeyMayMatch filter (ext.BlockHandleDecodeFrom handle_value).2.offset k
  | none => false

/-- The function `Table::InternalGet`: the returned status and the state afterwards (sink calls
are in the log). -/
def InternalGet (ext : External) (table : Table) (options : ReadOptions) (k : Slice) (sys : Sys) :
    Status × Sys :=
  let s := Status.OK
  let iiter := (table.rep_.index_block.NewIterator table.rep_.options.comparator).Seek k
  let r : Status × Sys :=
    if iiter.Valid then
      let handle_value := iiter.value
      if filterRejects ext table handle_value k then
        (s, sys.emit (Event.Printf "table.cc, internal get, filter not found++++++++++++\n"))
      else
        let br := BlockReader ext table options iiter.value sys
        let block_iter := br.1.Seek k
        let sys := if block_iter.Valid then saver block_iter.key block_iter.value br.2 else br.2
        (block_iter.status, block_iter.delete sys)
    else (s, sys)
  let s := if r.1.ok then iiter.status else r.1
  (s, iiter.delete r.2)

/-- The function `Table::ApproximateOffsetOf`. -/
def ApproximateOffsetOf (ext : External) (table : Table) (key : Slice) : Nat :=
  let index_iter := (table.rep_.index_block.NewIterator table.rep_.options.comparator).Seek key
  if index_iter.Valid then
    let d := ext.BlockHandleDecodeFrom index_iter.value
    if d.1.ok then d.2.offset
    else table.rep_.metaindex_handle.offset
  else table.rep_.metaindex_handle.offset

/-! ## A concrete table, for evaluating the definitions -/

/-- A sample block format: a block is a run of triples `key byte, value byte, value byte`; any
other length is malformed. -/
def sampleEntries : Slice → Option (List (Slice × Slice))
  | [] => some []
  | k :: a :: b :: rest => (sampleEntries rest).map (fun es => ([k], [a, b]) :: es)
  | _ => none

/-- A sample instance of the collaborators: handles and footers are stored as raw
`offset, size` bytes, `ReadBlock` is a plain read of the handle's range, a filter lists the key
bytes it admits. -/
def sampleExt : External where
  kEncodedLength := 4
  FooterDecodeFrom := fun input =>
    match input with
    | [mo, ms, io, is] => (Status.OK, ⟨⟨mo, ms⟩, ⟨io, is⟩⟩)
    | _ => (Status.Corruption "not an sstable (bad magic number)", ⟨⟨0, 0⟩, ⟨0, 0⟩⟩)
  BlockHandleDecodeFrom := fun input =>
    match input with
    | o :: s :: _ => (Status.OK, ⟨o, s⟩)
    | _ => (Status.Corruption "bad block handle", ⟨0, 0⟩)
  ReadBlock := fun file _ handle =>
    ((file.Read handle.offset handle.size).1,
      { data := (file.Read handle.offset handle.size).2, cachable := true, heap_allocated := true })
  NewBlock := fun contents =>
    match sampleEntries contents.data with
    | some es => { entries := es, status := Status.OK, size := contents.data.length }
    | none => { entries := [], status := Status.Corruption "bad block contents",
                size := contents.data.length }
  KeyMayMatch := fun filter _ k =>
    match k with
    | [b] => filter.contents.contains b
    | _ => true

/-- A file holding the given bytes. -/
def fileOf (bytes : Slice) : RandomAccessFile where
  Read := fun offset n =>
    if offset + n ≤ bytes.length then (Status.OK, (bytes.drop offset).take n)
    else (Status.IOError "read past the end of the file", [])

/-- The bytes of a sample table: data block `10 ↦ 1 1, 20 ↦ 2 2` at offset 0, data block
`30 ↦ 3 3, 40 ↦ 4 4` at offset 6, the index block `20 ↦ (0, 6), 40 ↦ (6, 6)` at offset 12, an
empty metaindex block at offset 18, and the footer. -/
def sampleBytes : Slice :=
  [10, 1, 1, 20, 2, 2] ++ [30, 3, 3, 40, 4, 4] ++ [20, 0, 6, 40, 6, 6] ++ [18, 0, 12, 6]

/-- Options of the sample table: bytewise order, no filter policy. -/
def sampleOptions (block_cache : Bool) : Options :=
  { comparator := BytewiseComparator, paranoid_checks := false, block_cache := block_cache,
    filter_policy := none }

/-- A cache with no entry. -/
def emptyCache : Cache := { table := [], last_id := 0 }

/-- The state with an empty log over cache `c`. -/
def Sys.start (c : Cache) : Sys := { cache := c, log := [] }

/-- The sample table, as `Rep` built by hand (the index block of `sampleBytes`). -/
def sampleTable (block_cache : Bool) (filter : Option FilterBlockReader) : Table :=
  { rep_ :=
    { options := sampleOptions block_cache, status := Status.OK, file := fileOf sampleBytes,
      cache_id := 1, filter := filter, filter_data := none, metaindex_handle := ⟨18, 0⟩,
      index_block := { entries := [([20], [0, 6]), ([40], [6, 6])], status := Status.OK,
                       size := 6 } } }

/-- A filter for the sample table, admitting exactly the four stored key bytes. -/
def sampleFilter : FilterBlockReader := { policy := none, contents := [10, 20, 30, 40] }

/-- A second handle on the sample file, opened with another cache id. -/
def sampleTable2 : Table :=
  { rep_ := { (sampleTable true none).rep_ with cache_id := 2 } }

/-- One use of `BlockReader` by a caller: fetch the cursor of an index value, seek it to a key or
leave it untouched, then discard it (`delete iter`). -/
def fetchAndDiscard (ext : External) (table : Table) (req : ReadOptions × Slice × Option Slice)
    (sys : Sys) : Sys :=
  let r := BlockReader ext table req.1 req.2.1 sys
  let iter := match req.2.2 with
    | some k => r.1.Seek k
    | none => r.1
  iter.delete r.2

/-- A run of fetches, each cursor discarded before the next fetch. -/
def fetchAll (ext : External) (table : Table) :
    List (ReadOptions × Slice × Option Slice) → Sys → Sys
  | [], sys => sys
  | req :: reqs, sys => fetchAll ext table reqs (fetchAndDiscard ext table req sys)

/-- A call of `BlockReader`. -/
def Event.isFetch : Event → Bool
  | .BlockReader _ => true
  | _ => false

/-- A cache lookup that hit: a handle acquired by `Lookup`. -/
def Event.isHit : Event → Bool
  | .CacheLookup _ true => true
  | _ => false

/-- A handle acquired by `Insert`. -/
def Event.isInsert : Event → Bool
  | .CacheInsert _ _ _ => true
  | _ => false

/-- A block allocated by `new Block(contents)`. -/
def Event.isNewBlock : Event → Bool
  | .NewBlock _ => true
  | _ => false

/-- A cache handle released. -/
def Event.isRelease : Event → Bool
  | .CacheRelease _ => true
  | _ => false

/-- A block deleted. -/
def Event.isDelete : Event → Bool
  | .DeleteBlock _ => true
  | _ => false

/-- A cleanup call: a cache handle released or a block deleted. -/
def Event.isCleanup (e : Event) : Bool := e.isRelease || e.isDelete

/-- The cleanup a fetch owes, in the words of the spec (section 4.4, step 5), stated on the cache
and the file rather than on `BlockReader`: none when the handle does not decode; a release of
the handle `Lookup` returns when the block is found in the cache; none when the block has to be
read and the read fails; a release of the handle `Insert` returns when the block read is
inserted into the cache; a deletion of the block read otherwise. -/
def owedCleanup (ext : External) (table : Table) (options : ReadOptions) (index_value : Slice)
    (sys : Sys) : List Cleanup :=
  if (ext.BlockHandleDecodeFrom index_value).1.ok then
    match (if table.rep_.options.block_cache then
        sys.cache.Lookup (cacheKey table.rep_.cache_id
          (ext.BlockHandleDecodeFrom index_value).2.offset)
      else none) with
    | some h => [Cleanup.ReleaseBlock h]
    | none =>
      if (ext.ReadBlock table.rep_.file options (ext.BlockHandleDecodeFrom index_value).2).1.ok
      then
        if table.rep_.options.block_cache &&
            ((ext.ReadBlock table.rep_.file options
              (ext.BlockHandleDecodeFrom index_value).2).2.cachable && options.fill_cache)
        then [Cleanup.ReleaseBlock (sys.cache.Insert
            (cacheKey table.rep_.cache_id (ext.BlockHandleDecodeFrom index_value).2.offset)
            (ext.NewBlock (ext.ReadBlock table.rep_.file options
              (ext.BlockHandleDecodeFrom index_value).2).2)).1]
        else [Cleanup.DeleteBlock (ext.NewBlock (ext.ReadBlock table.rep_.file options
              (ext.BlockHandleDecodeFrom index_value).2).2)]
      else []
  else []

/-- The cleanups a run of fetches owes, fetch by fetch, each in the state its fetch starts from. -/
def owedAll (ext : External) (table : Table) :
    List (ReadOptions × Slice × Option Slice) → Sys → List Cleanup
  | [], _ => []
  | req :: reqs, sys =>
    owedCleanup ext table req.1 req.2.1 sys ++
      owedAll ext table reqs (fetchAndDiscard ext table req sys)

/-- The bytes of a table whose index has a third entry `50 ↦ (0, 0)`: an empty block at the
offset of the first data block. Data blocks and the first two index entries are those of
`sampleBytes`; the index block is at offset 12 with 9 bytes, the footer at offset 21. -/
def aliasBytes : Slice :=
  [10, 1, 1, 20, 2, 2] ++ [30, 3, 3, 40, 4, 4] ++ [20, 0, 6, 40, 6, 6, 50, 0, 0] ++ [21, 0, 12, 9]

/-- The result of opening `aliasBytes` with a block cache, from an empty cache. -/
def aliasOpen : Status × Option Table × Sys :=
  Open sampleExt (sampleOptions true) (fileOf aliasBytes) 25 (Sys.start emptyCache)

/-- The table `aliasOpen` returns (the sample table stands in if it returned none). -/
def aliasTable : Table := aliasOpen.2.1.getD (sampleTable true none)

/-- The tally of a log segment holding `n` fetches: cleanup calls against blocks produced, handles
released against handles acquired, blocks deleted against blocks allocated and not handed to the
cache. -/
structure Tally (n : Nat) (evs : List Event) : Prop where
  fetches : evs.countP Event.isFetch = n
  cleanups : evs.countP Event.isRelease + evs.countP Event.isDelete
    = evs.countP Event.isHit + evs.countP Event.isNewBlock
  handles : evs.countP Event.isRelease = evs.countP Event.isHit + evs.countP Event.isInsert
  blocks : evs.countP Event.isDelete + evs.countP Event.isInsert = evs.countP Event.isNewBlock
  produced : evs.countP Event.isHit + evs.countP Event.isNewBlock ≤ n

/-- A sink call. -/
def Event.isSaver : Event → Bool
  | .Saver _ _ => true
  | _ => false

/-- The data block an index value locates in the file: decode the handle, read the block, build it;
none when the decode or the read fails. -/
def dataBlock (ext : External) (table : Table) (options : ReadOptions) (index_value : Slice) :
    Option Block :=
  if (ext.BlockHandleDecodeFrom index_value).1.ok then
    if (ext.ReadBlock table.rep_.file options (ext.BlockHandleDecodeFrom index_value).2).1.ok then
      some (ext.NewBlock
        (ext.ReadBlock table.rep_.file options (ext.BlockHandleDecodeFrom index_value).2).2)
    else none
  else none

/-- Every entry stored in the table: the entries of the data blocks the index entries locate. -/
def tableEntries (ext : External) (table : Table) (options : ReadOptions) :
    List (Slice × Slice) :=
  table.rep_.index_block.entries.flatMap (fun e =>
    match dataBlock ext table options e.2 with
    | some b => b.entries
    | none => [])

/-- The comparator is a total order: reflexive, antisymmetric in sign, transitive. -/
structure IsTotalOrder (cmp : Comparator) : Prop where
  refl : ∀ a, cmp a a = 0
  antisymm : ∀ a b, cmp a b < 0 ↔ 0 < cmp b a
  trans : ∀ a b c, cmp a b ≤ 0 → cmp b c ≤ 0 → cmp a c ≤ 0

/-- The keys of the entries increase strictly under `cmp`. -/
def strictlySorted (cmp : Comparator) : List (Slice × Slice) → Bool
  | [] => true
  | x :: xs => xs.all (fun y => decide (cmp x.1 y.1 < 0)) && strictlySorted cmp xs

/-- Well-formedness of the index entries against the file: each index value locates a block that
decodes, reads and is well formed, with strictly increasing keys, none above the index key; each
index key is at most the next index key and below every key of the next data block. -/
def indexWellFormed (ext : External) (table : Table) (options : ReadOptions) :
    List (Slice × Slice) → Bool
  | [] => true
  | e :: rest =>
    (match dataBlock ext table options e.2 with
      | some b => b.status.ok && strictlySorted table.rep_.options.comparator b.entries &&
          b.entries.all (fun x => decide (table.rep_.options.comparator x.1 e.1 ≤ 0))
      | none => false) &&
    (match rest with
      | [] => true
      | n :: _ => decide (table.rep_.options.comparator e.1 n.1 ≤ 0) &&
          (match dataBlock ext table options n.2 with
            | some nb => nb.entries.all
                (fun x => decide (table.rep_.options.comparator e.1 x.1 < 0))
            | none => true)) &&
    indexWellFormed ext table options rest

/-- The filter has no false negative: it admits every key of every data block, at that block's
offset. -/
def FilterSound (ext : External) (table : Table) (options : ReadOptions) : Prop :=
  ∀ filter, table.rep_.filter = some filter →
    ∀ e ∈ table.rep_.index_block.entries, ∀ b, dataBlock ext table options e.2 = some b →
      ∀ x ∈ b.entries, ext.KeyMayMatch filter (ext.BlockHandleDecodeFrom e.2).2.offset x.1 = true

/-- The cache is coherent with the file: a block cached under the key of this table and of the
offset of an index entry is the block that entry locates in the file. -/
def CacheCoherent (ext : External) (table : Table) (options : ReadOptions) (c : Cache) : Prop :=
  table.rep_.options.block_cache = true →
    ∀ e ∈ table.rep_.index_block.entries, ∀ h,
      c.Lookup (cacheKey table.rep_.cache_id (ext.BlockHandleDecodeFrom e.2).2.offset) = some h →
      dataBlock ext table options e.2 = some h.value

/-- A well-formed table, as `InternalGet` needs it under the given read options and cache. -/
structure WellFormed (ext : External) (table : Table) (options : ReadOptions) (c : Cache) :
    Prop where
  order : IsTotalOrder table.rep_.options.comparator
  index_ok : table.rep_.index_block.status.ok = true
  index : indexWellFormed ext table options table.rep_.index_block.entries = true
  filter : FilterSound ext table options
  cache : CacheCoherent ext table options c

/-- The effects logged between two states. -/
def Sys.since (before after : Sys) : List Event := after.log.drop before.log.length

/-! ## Theorems -/

/-! ### Basic facts about the log and the cursors -/

theorem since_of_log {a b : Sys} {evs : List Event} (h : b.log = a.log ++ evs) :
    Sys.since a b = evs := by
  simp [Sys.since, h]

@[simp] theorem emit_log (sys : Sys) (e : Event) : (sys.emit e).log = sys.log ++ [e] := rfl

@[simp] theorem emit_cache (sys : Sys) (e : Event) : (sys.emit e).cache = sys.cache := rfl

@[simp] theorem seek_cleanup (it : Iterator) (k : Slice) : (it.Seek k).cleanup = it.cleanup := rfl

@[simp] theorem seek_status (it : Iterator) (k : Slice) : (it.Seek k).status = it.status := rfl

@[simp] theorem newIterator_cleanup (b : Block) (cmp : Comparator) :
    (b.NewIterator cmp).cleanup = [] := by
  unfold Block.NewIterator NewErrorIterator
  split <;> rfl

theorem delete_nil (it : Iterator) (sys : Sys) (h : it.cleanup = []) :
    it.delete sys = sys := by
  simp [Iterator.delete, h]

/-! ### `Table::Open` -/

/-- C5: for every file and every size below the trailer length `Footer::kEncodedLength`,
`Table::Open` returns a Corruption status, leaves the output table null, and has no effect at
all (in particular it performs no read on the file: the state, log included, is unchanged). -/
theorem Open_too_short (ext : External) (options : Options) (file : RandomAccessFile)
    (size : Nat) (sys : Sys) (h : size < ext.kEncodedLength) :
    (Open ext options file size sys).1 = Status.Corruption "file is too short to be an sstable" ∧
    (Open ext options file size sys).1.IsCorruption = true ∧
    (Open ext options file size sys).2.1.isNone = true ∧
    (Open ext options file size sys).2.2 = sys := by
  simp [Open, h, Status.IsCorruption]

/-- Witness of C5 on the sample file, opened with size 3 below the trailer length 4. -/
theorem Open_too_short_witness :
    (3 < sampleExt.kEncodedLength) ∧
    ((Open sampleExt (sampleOptions true) (fileOf sampleBytes) 3 (Sys.start emptyCache)).1
        = Status.Corruption "file is too short to be an sstable" ∧
      (Open sampleExt (sampleOptions true) (fileOf sampleBytes) 3 (Sys.start emptyCache)).1.IsCorruption
        = true ∧
      (Open sampleExt (sampleOptions true) (fileOf sampleBytes) 3 (Sys.start emptyCache)).2.1.isNone
        = true ∧
      (Open sampleExt (sampleOptions true) (fileOf sampleBytes) 3 (Sys.start emptyCache)).2.2
        = Sys.start emptyCache) :=
  ⟨by decide, Open_too_short sampleExt (sampleOptions true) (fileOf sampleBytes) 3
    (Sys.start emptyCache) (by decide)⟩

/-! ### `Table::ApproximateOffsetOf` -/

/-- C7: `Table::ApproximateOffsetOf` (a total function) returns the offset of the handle decoded
from the index entry the seek lands on when that entry exists and decodes; it returns the stored
metaindex handle's offset when the landed entry's value cannot be decoded and when the seek lands
on no entry, which is the case for a key past every index entry. -/
theorem ApproximateOffsetOf_cases (ext : External) (table : Table) (key : Slice) :
    (∀ e, ((table.rep_.index_block.NewIterator table.rep_.options.comparator).Seek key).current
          = some e →
        (ext.BlockHandleDecodeFrom e.2).1.ok = true →
        ApproximateOffsetOf ext table key = (ext.BlockHandleDecodeFrom e.2).2.offset) ∧
    (∀ e, ((table.rep_.index_block.NewIterator table.rep_.options.comparator).Seek key).current
          = some e →
        (ext.BlockHandleDecodeFrom e.2).1.ok = false →
        ApproximateOffsetOf ext table key = table.rep_.metaindex_handle.offset) ∧
    (((table.rep_.index_block.NewIterator table.rep_.options.comparator).Seek key).current = none →
        ApproximateOffsetOf ext table key = table.rep_.metaindex_handle.offset) ∧
    ((∀ e ∈ table.rep_.index_block.entries, table.rep_.options.comparator e.1 key < 0) →
        ApproximateOffsetOf ext table key = table.rep_.metaindex_handle.offset) := by
  refine ⟨?_, ?_, ?_, ?_⟩
  · intro e he hd
    simp [ApproximateOffsetOf, Iterator.Valid, Iterator.value, he, hd]
  · intro e he hd
    simp [ApproximateOffsetOf, Iterator.Valid, Iterator.value, he, hd]
  · intro he
    simp [ApproximateOffsetOf, Iterator.Valid, he]
  · intro hall
    have : ((table.rep_.index_block.NewIterator table.rep_.options.comparator).Seek key).current
        = none := by
      unfold Block.NewIterator NewErrorIterator Iterator.Seek
      split
      · simp only [List.find?_eq_none]
        intro e he
        have := hall e he
        simp
        omega
      · simp
    simp [ApproximateOffsetOf, Iterator.Valid, this]

/-! ### `Table::Open`, continued -/

theorem ReadFilter_rep (ext : External) (table : Table) (v : Slice) (sys : Sys) :
    (ReadFilter ext table v sys).1.rep_ =
      { table.rep_ with filter := (ReadFilter ext table v sys).1.rep_.filter,
                        filter_data := (ReadFilter ext table v sys).1.rep_.filter_data } := by
  unfold ReadFilter
  simp only []
  split
  · rfl
  · split <;> rfl

theorem ReadMeta_rep (ext : External) (table : Table) (footer : Footer) (sys : Sys) :
    (ReadMeta ext table footer sys).1.rep_ =
      { table.rep_ with filter := (ReadMeta ext table footer sys).1.rep_.filter,
                        filter_data := (ReadMeta ext table footer sys).1.rep_.filter_data } := by
  unfold ReadMeta
  split
  · rfl
  · simp only []
    split
    · rfl
    · split
      · exact ReadFilter_rep _ _ _ _
      · rfl

theorem ReadMeta_no_policy (ext : External) (table : Table) (footer : Footer) (sys : Sys)
    (h : table.rep_.options.filter_policy = none) :
    ReadMeta ext table footer sys = (table, sys) := by
  unfold ReadMeta
  simp [h]

theorem openTable_rep (ext : External) (options : Options) (file : RandomAccessFile)
    (footer : Footer) (index_block : Block) (sys : Sys) :
    (openTable ext options file footer index_block sys).1.rep_ =
      { options := options, status := Status.OK, file := file,
        metaindex_handle := footer.metaindex_handle, index_block := index_block,
        cache_id := if options.block_cache then sys.cache.NewId.1 else 0,
        filter := (openTable ext options file footer index_block sys).1.rep_.filter,
        filter_data := (openTable ext options file footer index_block sys).1.rep_.filter_data } := by
  unfold openTable
  simp only []
  rw [ReadMeta_rep]
  cases options.block_cache <;> simp

theorem Open_ok (ext : External) (options : Options) (file : RandomAccessFile)
    (size : Nat) (sys : Sys) (h1 : ¬ size < ext.kEncodedLength)
    (h2 : (file.Read (size - ext.kEncodedLength) ext.kEncodedLength).1.ok = true)
    (h3 : (ext.FooterDecodeFrom
            (file.Read (size - ext.kEncodedLength) ext.kEncodedLength).2).1.ok = true)
    (h4 : (ext.ReadBlock file (metaReadOptions options.paranoid_checks)
            (ext.FooterDecodeFrom
              (file.Read (size - ext.kEncodedLength) ext.kEncodedLength).2).2.index_handle).1.ok
          = true) :
    ∃ sys3, Open ext options file size sys =
      ((ext.ReadBlock file (metaReadOptions options.paranoid_checks)
            (ext.FooterDecodeFrom
              (file.Read (size - ext.kEncodedLength) ext.kEncodedLength).2).2.index_handle).1,
       some (openTable ext options file
          (ext.FooterDecodeFrom (file.Read (size - ext.kEncodedLength) ext.kEncodedLength).2).2
          (ext.NewBlock (ext.ReadBlock file (metaReadOptions options.paranoid_checks)
            (ext.FooterDecodeFrom
              (file.Read (size - ext.kEncodedLength) ext.kEncodedLength).2).2.index_handle).2)
          sys3).1,
       (openTable ext options file
          (ext.FooterDecodeFrom (file.Read (size - ext.kEncodedLength) ext.kEncodedLength).2).2
          (ext.NewBlock (ext.ReadBlock file (metaReadOptions options.paranoid_checks)
            (ext.FooterDecodeFrom
              (file.Read (size - ext.kEncodedLength) ext.kEncodedLength).2).2.index_handle).2)
          sys3).2) ∧ sys3.cache = sys.cache := by
  refine ⟨((sys.emit (Event.FileRead (size - ext.kEncodedLength) ext.kEncodedLength)).emit
    (Event.ReadBlock (ext.FooterDecodeFrom
      (file.Read (size - ext.kEncodedLength) ext.kEncodedLength).2).2.index_handle)).emit
    (Event.NewBlock (ext.NewBlock (ext.ReadBlock file (metaReadOptions options.paranoid_checks)
      (ext.FooterDecodeFrom
        (file.Read (size - ext.kEncodedLength) ext.kEncodedLength).2).2.index_handle).2)), ?_, ?_⟩
  · simp only [Open, ReadBlock, NewBlock, h1, h2, h3, h4]
    simp only [if_false, if_true, Bool.not_true, Bool.false_eq_true]
  · simp

/-- C6: `Table::Open` returns an OK status with a non-null table exactly when the size is at least
the trailer length and the footer read, the footer decode and the index-block read all succeed;
otherwise it returns the status of the first failing step, with a null table. Status and
non-nullness are those of the same call with metadata loading disabled (no filter policy); the
table returned has the fields fixed by the footer and the index block, whatever `ReadMeta` and
`ReadFilter` did, which set only `filter` and `filter_data`. -/
theorem Open_result (ext : External) (options : Options) (file : RandomAccessFile)
    (size : Nat) (sys : Sys) :
    let len := ext.kEncodedLength
    let rd := file.Read (size - len) len
    let fd := ext.FooterDecodeFrom rd.2
    let ir := ext.ReadBlock file (metaReadOptions options.paranoid_checks) fd.2.index_handle
    let r := Open ext options file size sys
    let r0 := Open ext { options with filter_policy := none } file size sys
    (((r.1.ok = true ∧ r.2.1.isSome = true)) ↔
      (len ≤ size ∧ rd.1.ok = true ∧ fd.1.ok = true ∧ ir.1.ok = true)) ∧
    (r.1 = if size < len then Status.Corruption "file is too short to be an sstable"
           else if rd.1.ok = false then rd.1
           else if fd.1.ok = false then fd.1
           else ir.1) ∧
    (r.2.1.isSome = r.1.ok) ∧
    (r.1 = r0.1 ∧ r.2.1.isSome = r0.2.1.isSome) ∧
    (∀ t, r.2.1 = some t →
      t.rep_ = { options := options, status := Status.OK, file := file,
                 metaindex_handle := fd.2.metaindex_handle, index_block := ext.NewBlock ir.2,
                 cache_id := if options.block_cache then (sys.cache.last_id + 1) % 2 ^ 64 else 0,
                 filter := t.rep_.filter, filter_data := t.rep_.filter_data }) ∧
    (∀ t0, r0.2.1 = some t0 → t0.rep_.filter = none) := by
  intro len rd fd ir r r0
  by_cases h1 : size < ext.kEncodedLength
  · simp [r, r0, len, Open, h1, Status.ok]
  · by_cases h2 : rd.1.ok = true
    · by_cases h3 : fd.1.ok = true
      · by_cases h4 : ir.1.ok = true
        · obtain ⟨sys3, hr, hc⟩ := Open_ok ext options file size sys h1 h2 h3 h4
          obtain ⟨sys4, hr0, -⟩ := Open_ok ext { options with filter_policy := none } file size sys
            h1 h2 h3 h4
          have hlen : len ≤ size := Nat.le_of_not_lt h1
          refine ⟨?_, ?_, ?_, ?_, ?_, ?_⟩
          · simp only [r, hr]
            exact ⟨fun _ => ⟨hlen, h2, h3, h4⟩, fun _ => ⟨h4, rfl⟩⟩
          · simp only [r, hr]
            simp [len, h1, h2, h3]
          · simp only [r, hr]
            simp [h4]
          · simp only [r, r0, hr, hr0]
            simp
          · intro t ht
            simp only [r, hr] at ht
            cases ht
            rw [openTable_rep]
            simp [Cache.NewId, hc, fd, rd, ir, len]
          · intro t0 ht0
            simp only [r0, hr0] at ht0
            cases ht0
            simp [openTable, ReadMeta_no_policy]
        · simp only [rd, fd, ir, len] at h2 h3 h4
          simp only [r, r0, rd, fd, ir, len, Open, ReadBlock, NewBlock, h1, h2, h3, h4]
          simp [h4]
      · simp only [rd, fd, ir, len] at h2 h3
        simp [r, r0, rd, fd, ir, len, Open, h1, h2, h3]
    · simp only [rd, fd, ir, len] at h2
      simp [r, r0, rd, fd, ir, len, Open, h1, h2]

/-! ### The log only grows -/

theorem run_eq (c : Cleanup) (sys : Sys) : c.run sys = sys.emit c.event := by
  cases c <;> rfl

theorem delete_eq (it : Iterator) (sys : Sys) :
    it.delete sys = { sys with log := sys.log ++ it.cleanup.map Cleanup.event } := by
  unfold Iterator.delete
  generalize it.cleanup = cs
  induction cs generalizing sys with
  | nil => simp
  | cons c cs ih =>
    rw [List.foldl_cons, ih, run_eq]
    simp [Sys.emit]

@[simp] theorem delete_log (it : Iterator) (sys : Sys) :
    (it.delete sys).log = sys.log ++ it.cleanup.map Cleanup.event := by
  rw [delete_eq]

@[simp] theorem delete_cache (it : Iterator) (sys : Sys) :
    (it.delete sys).cache = sys.cache := by
  rw [delete_eq]

theorem readAndBuild_log (ext : External) (table : Table) (options : ReadOptions)
    (handle : BlockHandle) (sys : Sys) :
    (readAndBuild ext table options handle sys).2.2.2.log
        = sys.log ++ Sys.since sys (readAndBuild ext table options handle sys).2.2.2 ∧
      (∀ iv, Event.BlockReader iv ∉ Sys.since sys (readAndBuild ext table options handle sys).2.2.2)
    := by
  unfold readAndBuild ReadBlock NewBlock
  simp only []
  split <;> simp [Sys.since]

theorem fetchBlock_log (ext : External) (table : Table) (options : ReadOptions)
    (index_value : Slice) (sys : Sys) :
    (fetchBlock ext table options index_value sys).2.2.2.log
        = sys.log ++ Sys.since sys (fetchBlock ext table options index_value sys).2.2.2 ∧
      (∀ iv, Event.BlockReader iv ∉
        Sys.since sys (fetchBlock ext table options index_value sys).2.2.2) := by
  unfold fetchBlock
  simp only []
  split
  · split
    · obtain ⟨h1, h2⟩ := readAndBuild_log ext table options
          (ext.BlockHandleDecodeFrom index_value).2
          (sys.emit (Event.CacheLookup (cacheKey table.rep_.cache_id
            (ext.BlockHandleDecodeFrom index_value).2.offset) false))
      generalize Sys.since _ (readAndBuild ext table options
          (ext.BlockHandleDecodeFrom index_value).2
          (sys.emit (Event.CacheLookup (cacheKey table.rep_.cache_id
            (ext.BlockHandleDecodeFrom index_value).2.offset) false))).2.2.2 = evs at h1 h2
      split
      · simp [Sys.since]
      · rename_i hmiss
        simp only [hmiss, Option.isSome_none]
        split
        · split
          · simp [Sys.since, h1, h2]
          · simp [Sys.since, h1, h2]
        · simp [Sys.since, h1, h2]
    · exact readAndBuild_log ext table options (ext.BlockHandleDecodeFrom index_value).2 sys
  · simp [Sys.since]

theorem BlockReader_log (ext : External) (table : Table) (options : ReadOptions)
    (index_value : Slice) (sys : Sys) :
    ∃ evs, (BlockReader ext table options index_value sys).2.log
        = sys.log ++ Event.BlockReader index_value :: evs := by
  obtain ⟨h1, -⟩ := fetchBlock_log ext table options index_value
    (sys.emit (Event.BlockReader index_value))
  refine ⟨Sys.since (sys.emit (Event.BlockReader index_value))
    (fetchBlock ext table options index_value (sys.emit (Event.BlockReader index_value))).2.2.2, ?_⟩
  unfold BlockReader
  simp only []
  split
  · split <;> simp [h1]
  · simp [h1]

/-! ### `Table::InternalGet`: the three paths -/

theorem indexIter_cleanup (b : Block) (cmp : Comparator) (k : Slice) :
    ((b.NewIterator cmp).Seek k).cleanup = [] := by
  simp

theorem filterRejects_iff (ext : External) (table : Table) (handle_value k : Slice) :
    filterRejects ext table handle_value k = true ↔
      ∃ filter, table.rep_.filter = some filter ∧
        (ext.BlockHandleDecodeFrom handle_value).1.ok = true ∧
        ext.KeyMayMatch filter (ext.BlockHandleDecodeFrom handle_value).2.offset k = false := by
  unfold filterRejects
  cases table.rep_.filter <;> simp

theorem InternalGet_invalid (ext : External) (table : Table) (options : ReadOptions) (k : Slice)
    (sys : Sys)
    (h : ((table.rep_.index_block.NewIterator table.rep_.options.comparator).Seek k).Valid = false) :
    InternalGet ext table options k sys =
      (((table.rep_.index_block.NewIterator table.rep_.options.comparator).Seek k).status, sys) := by
  simp [InternalGet, h, Status.ok, delete_nil]

theorem InternalGet_rejected (ext : External) (table : Table) (options : ReadOptions) (k : Slice)
    (sys : Sys)
    (h : ((table.rep_.index_block.NewIterator table.rep_.options.comparator).Seek k).Valid = true)
    (hf : filterRejects ext table
      ((table.rep_.index_block.NewIterator table.rep_.options.comparator).Seek k).value k = true) :
    InternalGet ext table options k sys =
      (((table.rep_.index_block.NewIterator table.rep_.options.comparator).Seek k).status,
        sys.emit (Event.Printf "table.cc, internal get, filter not found++++++++++++\n")) := by
  simp [InternalGet, h, hf, Status.ok, delete_nil]

theorem InternalGet_fetch (ext : External) (table : Table) (options : ReadOptions) (k : Slice)
    (sys : Sys)
    (h : ((table.rep_.index_block.NewIterator table.rep_.options.comparator).Seek k).Valid = true)
    (hf : filterRejects ext table
      ((table.rep_.index_block.NewIterator table.rep_.options.comparator).Seek k).value k = false) :
    InternalGet ext table options k sys =
      (if ((BlockReader ext table options
              ((table.rep_.index_block.NewIterator table.rep_.options.comparator).Seek k).value
              sys).1.Seek k).status.ok
        then ((table.rep_.index_block.NewIterator table.rep_.options.comparator).Seek k).status
        else ((BlockReader ext table options
              ((table.rep_.index_block.NewIterator table.rep_.options.comparator).Seek k).value
              sys).1.Seek k).status,
       ((BlockReader ext table options
              ((table.rep_.index_block.NewIterator table.rep_.options.comparator).Seek k).value
              sys).1.Seek k).delete
          (if ((BlockReader ext table options
              ((table.rep_.index_block.NewIterator table.rep_.options.comparator).Seek k).value
              sys).1.Seek k).Valid
           then saver
              ((BlockReader ext table options
                ((table.rep_.index_block.NewIterator table.rep_.options.comparator).Seek k).value
                sys).1.Seek k).key
              ((BlockReader ext table options
                ((table.rep_.index_block.NewIterator table.rep_.options.comparator).Seek k).value
                sys).1.Seek k).value
              (BlockReader ext table options
                ((table.rep_.index_block.NewIterator table.rep_.options.comparator).Seek k).value
                sys).2
           else (BlockReader ext table options
                ((table.rep_.index_block.NewIterator table.rep_.options.comparator).Seek k).value
                sys).2)) := by
  simp only [InternalGet, h, hf, if_true, Bool.false_eq_true, if_false]
  rw [delete_nil _ _ (indexIter_cleanup _ _ _)]

/-- C4: the status `Table::InternalGet` returns is the data-block cursor's status when a block
cursor was fetched and that status is not OK; in every other case (block cursor OK, fetch skipped
by the filter, index seek invalid) it is the index cursor's status. So the result is OK exactly
when the index cursor's status is OK and the block cursor's status, if one was fetched, is OK. -/
theorem InternalGet_status (ext : External) (table : Table) (options : ReadOptions) (k : Slice)
    (sys : Sys) :
    let iiter := (table.rep_.index_block.NewIterator table.rep_.options.comparator).Seek k
    let block_iter := (BlockReader ext table options iiter.value sys).1.Seek k
    let fetched : Prop := iiter.Valid = true ∧ filterRejects ext table iiter.value k = false
    let s := (InternalGet ext table options k sys).1
    (fetched → block_iter.status.ok = false → s = block_iter.status) ∧
    (fetched → block_iter.status.ok = true → s = iiter.status) ∧
    (¬ fetched → s = iiter.status) ∧
    (s.ok = true ↔ (iiter.status.ok = true ∧ (fetched → block_iter.status.ok = true))) := by
  intro iiter block_iter fetched s
  by_cases hv : iiter.Valid = true
  · by_cases hf : filterRejects ext table iiter.value k = true
    · have hs : s = iiter.status := by
        simp only [s, InternalGet_rejected ext table options k sys hv hf, iiter]
      have hnf : ¬ fetched := fun h => by have h2 := h.2; rw [hf] at h2; cases h2
      exact ⟨fun h => absurd h hnf, fun h => absurd h hnf, fun _ => hs,
        by rw [hs]; exact ⟨fun h => ⟨h, fun h' => absurd h' hnf⟩, fun h => h.1⟩⟩
    · have hf' : filterRejects ext table iiter.value k = false := by simpa using hf
      have hs : s = if block_iter.status.ok then iiter.status else block_iter.status := by
        simp only [s, InternalGet_fetch ext table options k sys hv hf', iiter, block_iter]
      have hfe : fetched := ⟨hv, hf'⟩
      refine ⟨fun _ hb => by simp [hs, hb], fun _ hb => by simp [hs, hb],
        fun h => absurd hfe h, ?_⟩
      rw [hs]
      by_cases hb : block_iter.status.ok = true
      · simp [hb]
      · simp [hb]
        intro _
        exact hfe
  · have hv' : iiter.Valid = false := by simpa using hv
    have hs : s = iiter.status := by
      simp only [s, InternalGet_invalid ext table options k sys hv', iiter]
    have hnf : ¬ fetched := fun h => hv h.1
    exact ⟨fun h => absurd h hnf, fun h => absurd h hnf, fun _ => hs,
      by rw [hs]; exact ⟨fun h => ⟨h, fun h' => absurd h' hnf⟩, fun h => h.1⟩⟩

/-- C3: `Table::InternalGet` calls `BlockReader` on no index value exactly when the index seek is
invalid, or a filter is attached, the landed index value decodes and
`KeyMayMatch(handle.offset, key)` is false. When the seek lands on an entry and the filter is
absent, or the handle does not decode, or the filter answers "maybe present", `BlockReader` is
called on the landed index value, its cursor is sought to the key, an entry it lands on goes to
the sink, and the cursor is discarded. When the filter answers "definitely absent" the only
effect is the diagnostic print: no file read, no cache lookup, no sink call, cache unchanged. -/
theorem InternalGet_skips_fetch_iff (ext : External) (table : Table) (options : ReadOptions)
    (k : Slice) (sys : Sys) :
    let iiter := (table.rep_.index_block.NewIterator table.rep_.options.comparator).Seek k
    let d := ext.BlockHandleDecodeFrom iiter.value
    let r := InternalGet ext table options k sys
    let br := BlockReader ext table options iiter.value sys
    let block_iter := br.1.Seek k
    let absent : Prop := ∃ filter, table.rep_.filter = some filter ∧ d.1.ok = true ∧
      ext.KeyMayMatch filter d.2.offset k = false
    ((∀ iv, Event.BlockReader iv ∉ Sys.since sys r.2) ↔ (iiter.Valid = false ∨ absent)) ∧
    (iiter.Valid = true →
      (table.rep_.filter = none ∨ d.1.ok = false ∨
        ∃ filter, table.rep_.filter = some filter ∧ ext.KeyMayMatch filter d.2.offset k = true) →
      Event.BlockReader iiter.value ∈ Sys.since sys r.2 ∧
      r.2 = block_iter.delete
        (if block_iter.Valid then saver block_iter.key block_iter.value br.2 else br.2)) ∧
    (iiter.Valid = true → absent →
      Sys.since sys r.2 = [Event.Printf "table.cc, internal get, filter not found++++++++++++\n"] ∧
      r.2.cache = sys.cache) := by
  intro iiter d r br block_iter absent
  have habs : filterRejects ext table iiter.value k = true ↔ absent :=
    filterRejects_iff ext table iiter.value k
  have hfetch : iiter.Valid = true → filterRejects ext table iiter.value k = false →
      Event.BlockReader iiter.value ∈ Sys.since sys r.2 ∧
      r.2 = block_iter.delete
        (if block_iter.Valid then saver block_iter.key block_iter.value br.2 else br.2) := by
    intro hv hf
    have hr : r.2 = block_iter.delete
        (if block_iter.Valid then saver block_iter.key block_iter.value br.2 else br.2) := by
      simp only [r, InternalGet_fetch ext table options k sys hv hf, block_iter, br, iiter]
    refine ⟨?_, hr⟩
    obtain ⟨evs, hlog⟩ := BlockReader_log ext table options iiter.value sys
    have hl : r.2.log = sys.log ++ (Event.BlockReader iiter.value :: (evs ++
        ((if block_iter.Valid then [Event.Saver block_iter.key block_iter.value] else []) ++
          block_iter.cleanup.map Cleanup.event))) := by
      rw [hr, delete_log]
      split
      · simp only [saver, emit_log, br, hlog]
        simp
      · simp only [br, hlog]
        simp
    rw [since_of_log hl]
    simp
  refine ⟨?_, ?_, ?_⟩
  · by_cases hv : iiter.Valid = true
    · by_cases hf : filterRejects ext table iiter.value k = true
      · have hr : r = (iiter.status, sys.emit
            (Event.Printf "table.cc, internal get, filter not found++++++++++++\n")) :=
          InternalGet_rejected ext table options k sys hv hf
        have hl : r.2.log = sys.log ++
            [Event.Printf "table.cc, internal get, filter not found++++++++++++\n"] := by
          rw [hr]; rfl
        rw [since_of_log hl]
        simp only [List.mem_singleton]
        exact ⟨fun _ => Or.inr (habs.mp hf), fun _ iv h => by cases h⟩
      · have hf' : filterRejects ext table iiter.value k = false := by simpa using hf
        constructor
        · intro h
          exact absurd (hfetch hv hf').1 (h iiter.value)
        · rintro (h | h)
          · rw [hv] at h; cases h
          · exact absurd (habs.mpr h) hf
    · have hv' : iiter.Valid = false := by simpa using hv
      have hr : r = (iiter.status, sys) := InternalGet_invalid ext table options k sys hv'
      have hl : r.2.log = sys.log ++ [] := by rw [hr]; simp
      rw [since_of_log hl]
      simp [hv']
  · intro hv hcase
    apply hfetch hv
    cases hrej : filterRejects ext table iiter.value k with
    | false => rfl
    | true =>
      obtain ⟨filter, h1, h2, h3⟩ := habs.mp hrej
      rcases hcase with h | h | ⟨f, hf1, hf2⟩
      · rw [h1] at h; cases h
      · rw [h2] at h; cases h
      · rw [h1] at hf1; cases hf1; rw [h3] at hf2; cases hf2
  · intro hv ha
    have hr : r = (iiter.status, sys.emit
        (Event.Printf "table.cc, internal get, filter not found++++++++++++\n")) :=
      InternalGet_rejected ext table options k sys hv (habs.mpr ha)
    have hl : r.2.log = sys.log ++
        [Event.Printf "table.cc, internal get, filter not found++++++++++++\n"] := by
      rw [hr]; rfl
    exact ⟨since_of_log hl, by rw [hr]; rfl⟩

/-! ### The cache key -/

theorem EncodeFixed64_length (v : Nat) : (EncodeFixed64 v).length = 8 := by
  simp [EncodeFixed64]

theorem EncodeFixed64_eq (v : Nat) :
    EncodeFixed64 v = [v % 256, v / 256 % 256, v / 65536 % 256, v / 16777216 % 256,
      v / 4294967296 % 256, v / 1099511627776 % 256, v / 281474976710656 % 256,
      v / 72057594037927936 % 256] := by
  simp [EncodeFixed64, List.range, List.range.loop]

theorem EncodeFixed64_inj (a b : Nat) :
    EncodeFixed64 a = EncodeFixed64 b ↔ a % 2 ^ 64 = b % 2 ^ 64 := by
  rw [EncodeFixed64_eq, EncodeFixed64_eq]
  constructor
  · intro h
    simp only [List.cons.injEq, and_true] at h
    omega
  · intro h
    simp only [List.cons.injEq, and_true]
    omega

theorem cacheKey_inj (a o a' o' : Nat) :
    cacheKey a o = cacheKey a' o' ↔ (a % 2 ^ 64 = a' % 2 ^ 64 ∧ o % 2 ^ 64 = o' % 2 ^ 64) := by
  unfold cacheKey
  rw [← EncodeFixed64_inj, ← EncodeFixed64_inj]
  constructor
  · intro h
    exact List.append_inj h (by simp [EncodeFixed64_length])
  · rintro ⟨h1, h2⟩
    rw [h1, h2]

/-! ### The cache -/

theorem lookup_filter_ne (l : List (Slice × Block)) (k k' : Slice) (h : k' ≠ k) :
    (l.filter (fun e => e.1 != k)).lookup k' = l.lookup k' := by
  induction l with
  | nil => rfl
  | cons e l ih =>
    obtain ⟨ek, ev⟩ := e
    by_cases hk : ek = k
    · subst hk
      have : (k' == ek) = false := by simpa using h
      simp [List.filter, List.lookup, this, ih]
    · have hne : (ek != k) = true := by simpa using hk
      simp only [List.filter, hne, List.lookup]
      cases hkk : (k' == ek) with
      | true => rfl
      | false => exact ih

theorem Lookup_Insert_same (c : Cache) (k : Slice) (b : Block) :
    (c.Insert k b).2.Lookup k = some { key := k, value := b } := by
  simp [Cache.Insert, Cache.Lookup, List.lookup]

theorem Lookup_Insert_ne (c : Cache) (k k' : Slice) (b : Block) (h : k' ≠ k) :
    (c.Insert k b).2.Lookup k' = c.Lookup k' := by
  have : (k' == k) = false := by simpa using h
  simp [Cache.Insert, Cache.Lookup, List.lookup, this, lookup_filter_ne _ _ _ h]

/-! ### `Table::BlockReader`: the paths of the fetch -/

section paths
variable (ext : External) (table : Table) (options : ReadOptions) (index_value : Slice) (sys : Sys)

theorem fetchBlock_decode_fails (hd : (ext.BlockHandleDecodeFrom index_value).1.ok = false) :
    fetchBlock ext table options index_value sys =
      ((ext.BlockHandleDecodeFrom index_value).1, none, none, sys) := by
  simp [fetchBlock, hd]

theorem fetchBlock_nocache_fails (hd : (ext.BlockHandleDecodeFrom index_value).1.ok = true)
    (hc : table.rep_.options.block_cache = false)
    (hr : (ext.ReadBlock table.rep_.file options
            (ext.BlockHandleDecodeFrom index_value).2).1.ok = false) :
    fetchBlock ext table options index_value sys =
      ((ext.ReadBlock table.rep_.file options (ext.BlockHandleDecodeFrom index_value).2).1,
        none, none, sys.emit (Event.ReadBlock (ext.BlockHandleDecodeFrom index_value).2)) := by
  simp [fetchBlock, readAndBuild, ReadBlock, NewBlock, hd, hc, hr]

theorem fetchBlock_nocache_ok (hd : (ext.BlockHandleDecodeFrom index_value).1.ok = true)
    (hc : table.rep_.options.block_cache = false)
    (hr : (ext.ReadBlock table.rep_.file options
            (ext.BlockHandleDecodeFrom index_value).2).1.ok = true) :
    fetchBlock ext table options index_value sys =
      ((ext.ReadBlock table.rep_.file options (ext.BlockHandleDecodeFrom index_value).2).1,
        some (ext.NewBlock (ext.ReadBlock table.rep_.file options
          (ext.BlockHandleDecodeFrom index_value).2).2), none,
        (sys.emit (Event.ReadBlock (ext.BlockHandleDecodeFrom index_value).2)).emit
          (Event.NewBlock (ext.NewBlock (ext.ReadBlock table.rep_.file options
            (ext.BlockHandleDecodeFrom index_value).2).2))) := by
  simp [fetchBlock, readAndBuild, ReadBlock, NewBlock, hd, hc, hr]

theorem fetchBlock_hit (hd : (ext.BlockHandleDecodeFrom index_value).1.ok = true)
    (hc : table.rep_.options.block_cache = true) (h : Handle)
    (hl : sys.cache.Lookup (cacheKey table.rep_.cache_id
            (ext.BlockHandleDecodeFrom index_value).2.offset) = some h) :
    fetchBlock ext table options index_value sys =
      ((ext.BlockHandleDecodeFrom index_value).1, some h.value, some h,
        sys.emit (Event.CacheLookup (cacheKey table.rep_.cache_id
            (ext.BlockHandleDecodeFrom index_value).2.offset) true)) := by
  simp [fetchBlock, hd, hc, hl, Cache.Value]

theorem fetchBlock_miss_fails (hd : (ext.BlockHandleDecodeFrom index_value).1.ok = true)
    (hc : table.rep_.options.block_cache = true)
    (hl : sys.cache.Lookup (cacheKey table.rep_.cache_id
            (ext.BlockHandleDecodeFrom index_value).2.offset) = none)
    (hr : (ext.ReadBlock table.rep_.file options
            (ext.BlockHandleDecodeFrom index_value).2).1.ok = false) :
    fetchBlock ext table options index_value sys =
      ((ext.ReadBlock table.rep_.file options (ext.BlockHandleDecodeFrom index_value).2).1,
        none, none,
        (sys.emit (Event.CacheLookup (cacheKey table.rep_.cache_id
            (ext.BlockHandleDecodeFrom index_value).2.offset) false)).emit
          (Event.ReadBlock (ext.BlockHandleDecodeFrom index_value).2)) := by
  simp [fetchBlock, readAndBuild, ReadBlock, NewBlock, hd, hc, hl, hr]

theorem fetchBlock_miss_insert (hd : (ext.BlockHandleDecodeFrom index_value).1.ok = true)
    (hc : table.rep_.options.block_cache = true)
    (hl : sys.cache.Lookup (cacheKey table.rep_.cache_id
            (ext.BlockHandleDecodeFrom index_value).2.offset) = none)
    (hr : (ext.ReadBlock table.rep_.file options
            (ext.BlockHandleDecodeFrom index_value).2).1.ok = true)
    (hf : ((ext.ReadBlock table.rep_.file options
            (ext.BlockHandleDecodeFrom index_value).2).2.cachable && options.fill_cache) = true) :
    fetchBlock ext table options index_value sys =
      ((ext.ReadBlock table.rep_.file options (ext.BlockHandleDecodeFrom index_value).2).1,
        some (ext.NewBlock (ext.ReadBlock table.rep_.file options
          (ext.BlockHandleDecodeFrom index_value).2).2),
        some { key := cacheKey table.rep_.cache_id (ext.BlockHandleDecodeFrom index_value).2.offset,
               value := ext.NewBlock (ext.ReadBlock table.rep_.file options
                 (ext.BlockHandleDecodeFrom index_value).2).2 },
        { cache := (sys.cache.Insert
            (cacheKey table.rep_.cache_id (ext.BlockHandleDecodeFrom index_value).2.offset)
            (ext.NewBlock (ext.ReadBlock table.rep_.file options
              (ext.BlockHandleDecodeFrom index_value).2).2)).2,
          log := sys.log ++
            [Event.CacheLookup (cacheKey table.rep_.cache_id
                (ext.BlockHandleDecodeFrom index_value).2.offset) false,
             Event.ReadBlock (ext.BlockHandleDecodeFrom index_value).2,
             Event.NewBlock (ext.NewBlock (ext.ReadBlock table.rep_.file options
                (ext.BlockHandleDecodeFrom index_value).2).2),
             Event.CacheInsert
               (cacheKey table.rep_.cache_id (ext.BlockHandleDecodeFrom index_value).2.offset)
               (ext.NewBlock (ext.ReadBlock table.rep_.file options
                 (ext.BlockHandleDecodeFrom index_value).2).2)
               (ext.NewBlock (ext.ReadBlock table.rep_.file options
                 (ext.BlockHandleDecodeFrom index_value).2).2).size] }) := by
  simp only [Bool.and_eq_true] at hf
  simp [fetchBlock, readAndBuild, ReadBlock, NewBlock, hd, hc, hl, hr, hf, Sys.emit, Cache.Insert]

theorem fetchBlock_miss_keep (hd : (ext.BlockHandleDecodeFrom index_value).1.ok = true)
    (hc : table.rep_.options.block_cache = true)
    (hl : sys.cache.Lookup (cacheKey table.rep_.cache_id
            (ext.BlockHandleDecodeFrom index_value).2.offset) = none)
    (hr : (ext.ReadBlock table.rep_.file options
            (ext.BlockHandleDecodeFrom index_value).2).1.ok = true)
    (hf : ((ext.ReadBlock table.rep_.file options
            (ext.BlockHandleDecodeFrom index_value).2).2.cachable && options.fill_cache) = false) :
    fetchBlock ext table options index_value sys =
      ((ext.ReadBlock table.rep_.file options (ext.BlockHandleDecodeFrom index_value).2).1,
        some (ext.NewBlock (ext.ReadBlock table.rep_.file options
          (ext.BlockHandleDecodeFrom index_value).2).2), none,
        { cache := sys.cache,
          log := sys.log ++
            [Event.CacheLookup (cacheKey table.rep_.cache_id
                (ext.BlockHandleDecodeFrom index_value).2.offset) false,
             Event.ReadBlock (ext.BlockHandleDecodeFrom index_value).2,
             Event.NewBlock (ext.NewBlock (ext.ReadBlock table.rep_.file options
                (ext.BlockHandleDecodeFrom index_value).2).2)] }) := by
  simp only [fetchBlock, readAndBuild, ReadBlock, NewBlock, hd, hc, hl, hr, hf, if_true,
    Option.isSome_none, Bool.false_eq_true, if_false]
  simp [Sys.emit]

end paths

theorem BlockReader_eq (ext : External) (table : Table) (options : ReadOptions)
    (index_value : Slice) (sys : Sys) :
    BlockReader ext table options index_value sys =
      (match (fetchBlock ext table options index_value
                (sys.emit (Event.BlockReader index_value))).2.1,
             (fetchBlock ext table options index_value
                (sys.emit (Event.BlockReader index_value))).2.2.1 with
        | some b, none =>
          (b.NewIterator table.rep_.options.comparator).RegisterCleanup (Cleanup.DeleteBlock b)
        | some b, some h =>
          (b.NewIterator table.rep_.options.comparator).RegisterCleanup (Cleanup.ReleaseBlock h)
        | none, _ =>
          NewErrorIterator (fetchBlock ext table options index_value
                (sys.emit (Event.BlockReader index_value))).1,
       (fetchBlock ext table options index_value
                (sys.emit (Event.BlockReader index_value))).2.2.2) := by
  unfold BlockReader
  simp only []
  cases (fetchBlock ext table options index_value
                (sys.emit (Event.BlockReader index_value))).2.1 with
  | none => rfl
  | some b =>
    cases (fetchBlock ext table options index_value
                (sys.emit (Event.BlockReader index_value))).2.2.1 <;> rfl

/-- What a fetch does to the cache: nothing, or one insertion under the key of this table and
offset. -/
theorem fetchBlock_cache (ext : External) (table : Table) (options : ReadOptions)
    (index_value : Slice) (sys : Sys) :
    (fetchBlock ext table options index_value sys).2.2.2.cache = sys.cache ∨
    ∃ b, (fetchBlock ext table options index_value sys).2.2.2.cache =
      (sys.cache.Insert (cacheKey table.rep_.cache_id
        (ext.BlockHandleDecodeFrom index_value).2.offset) b).2 := by
  cases hd : (ext.BlockHandleDecodeFrom index_value).1.ok with
  | false => left; rw [fetchBlock_decode_fails _ _ _ _ _ hd]
  | true =>
    cases hr : (ext.ReadBlock table.rep_.file options
            (ext.BlockHandleDecodeFrom index_value).2).1.ok with
    | false =>
      cases hc : table.rep_.options.block_cache with
      | false => left; rw [fetchBlock_nocache_fails _ _ _ _ _ hd hc hr]; rfl
      | true =>
        cases hl : sys.cache.Lookup (cacheKey table.rep_.cache_id
            (ext.BlockHandleDecodeFrom index_value).2.offset) with
        | some h => left; rw [fetchBlock_hit _ _ _ _ _ hd hc h hl]; rfl
        | none => left; rw [fetchBlock_miss_fails _ _ _ _ _ hd hc hl hr]; rfl
    | true =>
      cases hc : table.rep_.options.block_cache with
      | false => left; rw [fetchBlock_nocache_ok _ _ _ _ _ hd hc hr]; rfl
      | true =>
        cases hl : sys.cache.Lookup (cacheKey table.rep_.cache_id
            (ext.BlockHandleDecodeFrom index_value).2.offset) with
        | some h => left; rw [fetchBlock_hit _ _ _ _ _ hd hc h hl]; rfl
        | none =>
          cases hf : ((ext.ReadBlock table.rep_.file options
            (ext.BlockHandleDecodeFrom index_value).2).2.cachable && options.fill_cache) with
          | false => left; rw [fetchBlock_miss_keep _ _ _ _ _ hd hc hl hr hf]
          | true => right; rw [fetchBlock_miss_insert _ _ _ _ _ hd hc hl hr hf]; exact ⟨_, rfl⟩

theorem BlockReader_cache (ext : External) (table : Table) (options : ReadOptions)
    (index_value : Slice) (sys : Sys) :
    (BlockReader ext table options index_value sys).2.cache = sys.cache ∨
    ∃ b, (BlockReader ext table options index_value sys).2.cache =
      (sys.cache.Insert (cacheKey table.rep_.cache_id
        (ext.BlockHandleDecodeFrom index_value).2.offset) b).2 := by
  rw [BlockReader_eq]
  exact fetchBlock_cache ext table options index_value (sys.emit (Event.BlockReader index_value))

/-- A fetch reads the cache at one key only: two states whose caches agree there give the same
status, block and handle, and log the same effects. -/
theorem fetchBlock_congr (ext : External) (table : Table) (options : ReadOptions)
    (index_value : Slice) (sys sys' : Sys)
    (h : sys.cache.Lookup (cacheKey table.rep_.cache_id
          (ext.BlockHandleDecodeFrom index_value).2.offset) =
        sys'.cache.Lookup (cacheKey table.rep_.cache_id
          (ext.BlockHandleDecodeFrom index_value).2.offset)) :
    (fetchBlock ext table options index_value sys).1
      = (fetchBlock ext table options index_value sys').1 ∧
    (fetchBlock ext table options index_value sys).2.1
      = (fetchBlock ext table options index_value sys').2.1 ∧
    (fetchBlock ext table options index_value sys).2.2.1
      = (fetchBlock ext table options index_value sys').2.2.1 ∧
    Sys.since sys (fetchBlock ext table options index_value sys).2.2.2
      = Sys.since sys' (fetchBlock ext table options index_value sys').2.2.2 := by
  cases hd : (ext.BlockHandleDecodeFrom index_value).1.ok with
  | false => simp [fetchBlock_decode_fails _ _ _ _ _ hd, Sys.since]
  | true =>
    cases hc : table.rep_.options.block_cache with
    | false =>
      cases hr : (ext.ReadBlock table.rep_.file options
            (ext.BlockHandleDecodeFrom index_value).2).1.ok with
      | false => simp [fetchBlock_nocache_fails _ _ _ _ _ hd hc hr, Sys.since]
      | true => simp [fetchBlock_nocache_ok _ _ _ _ _ hd hc hr, Sys.since]
    | true =>
      cases hl : sys.cache.Lookup (cacheKey table.rep_.cache_id
            (ext.BlockHandleDecodeFrom index_value).2.offset) with
      | some hh =>
        have hl' := hl
        rw [h] at hl'
        simp [fetchBlock_hit _ _ _ _ _ hd hc hh hl, fetchBlock_hit _ _ _ _ _ hd hc hh hl', Sys.since]
      | none =>
        have hl' := hl
        rw [h] at hl'
        cases hr : (ext.ReadBlock table.rep_.file options
            (ext.BlockHandleDecodeFrom index_value).2).1.ok with
        | false =>
          simp [fetchBlock_miss_fails _ _ _ _ _ hd hc hl hr,
            fetchBlock_miss_fails _ _ _ _ _ hd hc hl' hr, Sys.since]
        | true =>
          cases hf : ((ext.ReadBlock table.rep_.file options
            (ext.BlockHandleDecodeFrom index_value).2).2.cachable && options.fill_cache) with
          | false =>
            simp [fetchBlock_miss_keep _ _ _ _ _ hd hc hl hr hf,
              fetchBlock_miss_keep _ _ _ _ _ hd hc hl' hr hf, Sys.since]
          | true =>
            simp [fetchBlock_miss_insert _ _ _ _ _ hd hc hl hr hf,
              fetchBlock_miss_insert _ _ _ _ _ hd hc hl' hr hf, Sys.since]

theorem BlockReader_congr (ext : External) (table : Table) (options : ReadOptions)
    (index_value : Slice) (sys sys' : Sys)
    (h : sys.cache.Lookup (cacheKey table.rep_.cache_id
          (ext.BlockHandleDecodeFrom index_value).2.offset) =
        sys'.cache.Lookup (cacheKey table.rep_.cache_id
          (ext.BlockHandleDecodeFrom index_value).2.offset)) :
    (BlockReader ext table options index_value sys).1
      = (BlockReader ext table options index_value sys').1 ∧
    Sys.since sys (BlockReader ext table options index_value sys).2
      = Sys.since sys' (BlockReader ext table options index_value sys').2 := by
  obtain ⟨h1, h2, h3, h4⟩ := fetchBlock_congr ext table options index_value
    (sys.emit (Event.BlockReader index_value)) (sys'.emit (Event.BlockReader index_value))
    (by simpa using h)
  obtain ⟨l1, -⟩ := fetchBlock_log ext table options index_value
    (sys.emit (Event.BlockReader index_value))
  obtain ⟨l2, -⟩ := fetchBlock_log ext table options index_value
    (sys'.emit (Event.BlockReader index_value))
  rw [BlockReader_eq, BlockReader_eq]
  simp only [h1, h2, h3, true_and]
  have e1 : (fetchBlock ext table options index_value
      (sys.emit (Event.BlockReader index_value))).2.2.2.log = sys.log ++
        (Event.BlockReader index_value :: Sys.since (sys.emit (Event.BlockReader index_value))
          (fetchBlock ext table options index_value
            (sys.emit (Event.BlockReader index_value))).2.2.2) := by
    rw [l1]; simp
  have e2 : (fetchBlock ext table options index_value
      (sys'.emit (Event.BlockReader index_value))).2.2.2.log = sys'.log ++
        (Event.BlockReader index_value :: Sys.since (sys'.emit (Event.BlockReader index_value))
          (fetchBlock ext table options index_value
            (sys'.emit (Event.BlockReader index_value))).2.2.2) := by
    rw [l2]; simp
  rw [since_of_log e1, since_of_log e2, h4]

/-- C8: the 16-byte cache key of `Table::BlockReader` is injective in the pair
`(cache_id, offset)` of 64-bit values. So for two tables sharing one cache whose cache ids differ,
no key of one equals a key of the other, and a fetch by the second table yields the same cursor
and performs the same effects whether or not the first table fetched (and possibly inserted)
before it: it is never served a block the first one inserted. Within one table two keys are equal
exactly when the offsets are. -/
theorem cacheKey_isolation (ext : External) (t1 t2 : Table) (o1 o2 : ReadOptions)
    (iv1 iv2 : Slice) (sys : Sys)
    (h1 : t1.rep_.cache_id < 2 ^ 64) (h2 : t2.rep_.cache_id < 2 ^ 64)
    (hne : t1.rep_.cache_id ≠ t2.rep_.cache_id) :
    (∀ a o a' o', cacheKey a o = cacheKey a' o' ↔
      (a % 2 ^ 64 = a' % 2 ^ 64 ∧ o % 2 ^ 64 = o' % 2 ^ 64)) ∧
    (∀ off1 off2, cacheKey t1.rep_.cache_id off1 ≠ cacheKey t2.rep_.cache_id off2) ∧
    ((BlockReader ext t2 o2 iv2 (BlockReader ext t1 o1 iv1 sys).2).1
        = (BlockReader ext t2 o2 iv2 sys).1 ∧
      Sys.since (BlockReader ext t1 o1 iv1 sys).2
          (BlockReader ext t2 o2 iv2 (BlockReader ext t1 o1 iv1 sys).2).2
        = Sys.since sys (BlockReader ext t2 o2 iv2 sys).2) ∧
    (∀ off off', off < 2 ^ 64 → off' < 2 ^ 64 →
      (cacheKey t1.rep_.cache_id off = cacheKey t1.rep_.cache_id off' ↔ off = off')) := by
  have hkey : ∀ off1 off2, cacheKey t1.rep_.cache_id off1 ≠ cacheKey t2.rep_.cache_id off2 := by
    intro off1 off2 h
    have h' := ((cacheKey_inj _ _ _ _).mp h).1
    rw [Nat.mod_eq_of_lt h1, Nat.mod_eq_of_lt h2] at h'
    exact hne h'
  refine ⟨cacheKey_inj, hkey, ?_, ?_⟩
  · apply BlockReader_congr
    rcases BlockReader_cache ext t1 o1 iv1 sys with h | ⟨b, h⟩
    · rw [h]
    · rw [h]
      exact Lookup_Insert_ne _ _ _ _ (fun e => hkey _ _ e.symm)
  · intro off off' ho ho'
    rw [cacheKey_inj, Nat.mod_eq_of_lt ho, Nat.mod_eq_of_lt ho']
    simp

/-- Witness of C8: the two handles on the sample file, with cache ids 1 and 2, sharing an empty
cache; the first fetches the block at offset 0, then the second does. -/
theorem cacheKey_isolation_witness :
    ((sampleTable true none).rep_.cache_id < 2 ^ 64 ∧ sampleTable2.rep_.cache_id < 2 ^ 64 ∧
      (sampleTable true none).rep_.cache_id ≠ sampleTable2.rep_.cache_id) ∧
    ((∀ a o a' o', cacheKey a o = cacheKey a' o' ↔
      (a % 2 ^ 64 = a' % 2 ^ 64 ∧ o % 2 ^ 64 = o' % 2 ^ 64)) ∧
    (∀ off1 off2, cacheKey (sampleTable true none).rep_.cache_id off1
        ≠ cacheKey sampleTable2.rep_.cache_id off2) ∧
    ((BlockReader sampleExt sampleTable2 ReadOptions.default [0, 6]
          (BlockReader sampleExt (sampleTable true none) ReadOptions.default [0, 6]
            (Sys.start emptyCache)).2).1
        = (BlockReader sampleExt sampleTable2 ReadOptions.default [0, 6] (Sys.start emptyCache)).1 ∧
      Sys.since (BlockReader sampleExt (sampleTable true none) ReadOptions.default [0, 6]
            (Sys.start emptyCache)).2
          (BlockReader sampleExt sampleTable2 ReadOptions.default [0, 6]
            (BlockReader sampleExt (sampleTable true none) ReadOptions.default [0, 6]
              (Sys.start emptyCache)).2).2
        = Sys.since (Sys.start emptyCache)
            (BlockReader sampleExt sampleTable2 ReadOptions.default [0, 6]
              (Sys.start emptyCache)).2) ∧
    (∀ off off', off < 2 ^ 64 → off' < 2 ^ 64 →
      (cacheKey (sampleTable true none).rep_.cache_id off
        = cacheKey (sampleTable true none).rep_.cache_id off' ↔ off = off'))) :=
  ⟨⟨by decide, by decide, by decide⟩,
    cacheKey_isolation sampleExt (sampleTable true none) sampleTable2 ReadOptions.default
      ReadOptions.default [0, 6] [0, 6] (Sys.start emptyCache) (by decide) (by decide) (by decide)⟩

/-! ### `Table::BlockReader`: the cursor and the effects on each path -/

section readerPaths
variable (ext : External) (table : Table) (options : ReadOptions) (index_value : Slice) (sys : Sys)

theorem BlockReader_decode_fails (hd : (ext.BlockHandleDecodeFrom index_value).1.ok = false) :
    BlockReader ext table options index_value sys =
      (NewErrorIterator (ext.BlockHandleDecodeFrom index_value).1,
        { cache := sys.cache, log := sys.log ++ [Event.BlockReader index_value] }) := by
  rw [BlockReader_eq, fetchBlock_decode_fails _ _ _ _ _ hd]
  rfl

theorem BlockReader_nocache_fails (hd : (ext.BlockHandleDecodeFrom index_value).1.ok = true)
    (hc : table.rep_.options.block_cache = false)
    (hr : (ext.ReadBlock table.rep_.file options
            (ext.BlockHandleDecodeFrom index_value).2).1.ok = false) :
    BlockReader ext table options index_value sys =
      (NewErrorIterator
          (ext.ReadBlock table.rep_.file options (ext.BlockHandleDecodeFrom index_value).2).1,
        { cache := sys.cache,
          log := sys.log ++ [Event.BlockReader index_value,
            Event.ReadBlock (ext.BlockHandleDecodeFrom index_value).2] }) := by
  rw [BlockReader_eq, fetchBlock_nocache_fails _ _ _ _ _ hd hc hr]
  simp [Sys.emit]

theorem BlockReader_nocache_ok (hd : (ext.BlockHandleDecodeFrom index_value).1.ok = true)
    (hc : table.rep_.options.block_cache = false)
    (hr : (ext.ReadBlock table.rep_.file options
            (ext.BlockHandleDecodeFrom index_value).2).1.ok = true) :
    BlockReader ext table options index_value sys =
      (((ext.NewBlock (ext.ReadBlock table.rep_.file options
            (ext.BlockHandleDecodeFrom index_value).2).2).NewIterator
          table.rep_.options.comparator).RegisterCleanup
          (Cleanup.DeleteBlock (ext.NewBlock (ext.ReadBlock table.rep_.file options
            (ext.BlockHandleDecodeFrom index_value).2).2)),
        { cache := sys.cache,
          log := sys.log ++ [Event.BlockReader index_value,
            Event.ReadBlock (ext.BlockHandleDecodeFrom index_value).2,
            Event.NewBlock (ext.NewBlock (ext.ReadBlock table.rep_.file options
              (ext.BlockHandleDecodeFrom index_value).2).2)] }) := by
  rw [BlockReader_eq, fetchBlock_nocache_ok _ _ _ _ _ hd hc hr]
  simp [Sys.emit]

theorem BlockReader_hit (hd : (ext.BlockHandleDecodeFrom index_value).1.ok = true)
    (hc : table.rep_.options.block_cache = true) (h : Handle)
    (hl : sys.cache.Lookup (cacheKey table.rep_.cache_id
            (ext.BlockHandleDecodeFrom index_value).2.offset) = some h) :
    BlockReader ext table options index_value sys =
      ((h.value.NewIterator table.rep_.options.comparator).RegisterCleanup
          (Cleanup.ReleaseBlock h),
        { cache := sys.cache,
          log := sys.log ++ [Event.BlockReader index_value,
            Event.CacheLookup (cacheKey table.rep_.cache_id
              (ext.BlockHandleDecodeFrom index_value).2.offset) true] }) := by
  rw [BlockReader_eq, fetchBlock_hit _ _ _ _ _ hd hc h (by simpa using hl)]
  simp [Sys.emit]

theorem BlockReader_miss_fails (hd : (ext.BlockHandleDecodeFrom index_value).1.ok = true)
    (hc : table.rep_.options.block_cache = true)
    (hl : sys.cache.Lookup (cacheKey table.rep_.cache_id
            (ext.BlockHandleDecodeFrom index_value).2.offset) = none)
    (hr : (ext.ReadBlock table.rep_.file options
            (ext.BlockHandleDecodeFrom index_value).2).1.ok = false) :
    BlockReader ext table options index_value sys =
      (NewErrorIterator
          (ext.ReadBlock table.rep_.file options (ext.BlockHandleDecodeFrom index_value).2).1,
        { cache := sys.cache,
          log := sys.log ++ [Event.BlockReader index_value,
            Event.CacheLookup (cacheKey table.rep_.cache_id
              (ext.BlockHandleDecodeFrom index_value).2.offset) false,
            Event.ReadBlock (ext.BlockHandleDecodeFrom index_value).2] }) := by
  rw [BlockReader_eq, fetchBlock_miss_fails _ _ _ _ _ hd hc (by simpa using hl) hr]
  simp [Sys.emit]

theorem BlockReader_miss_insert (hd : (ext.BlockHandleDecodeFrom index_value).1.ok = true)
    (hc : table.rep_.options.block_cache = true)
    (hl : sys.cache.Lookup (cacheKey table.rep_.cache_id
            (ext.BlockHandleDecodeFrom index_value).2.offset) = none)
    (hr : (ext.ReadBlock table.rep_.file options
            (ext.BlockHandleDecodeFrom index_value).2).1.ok = true)
    (hf : ((ext.ReadBlock table.rep_.file options
            (ext.BlockHandleDecodeFrom index_value).2).2.cachable && options.fill_cache) = true) :
    BlockReader ext table options index_value sys =
      (((ext.NewBlock (ext.ReadBlock table.rep_.file options
            (ext.BlockHandleDecodeFrom index_value).2).2).NewIterator
          table.rep_.options.comparator).RegisterCleanup
          (Cleanup.ReleaseBlock
            { key := cacheKey table.rep_.cache_id (ext.BlockHandleDecodeFrom index_value).2.offset,
              value := ext.NewBlock (ext.ReadBlock table.rep_.file options
                (ext.BlockHandleDecodeFrom index_value).2).2 }),
        { cache := (sys.cache.Insert
            (cacheKey table.rep_.cache_id (ext.BlockHandleDecodeFrom index_value).2.offset)
            (ext.NewBlock (ext.ReadBlock table.rep_.file options
              (ext.BlockHandleDecodeFrom index_value).2).2)).2,
          log := sys.log ++ [Event.BlockReader index_value,
            Event.CacheLookup (cacheKey table.rep_.cache_id
                (ext.BlockHandleDecodeFrom index_value).2.offset) false,
            Event.ReadBlock (ext.BlockHandleDecodeFrom index_value).2,
            Event.NewBlock (ext.NewBlock (ext.ReadBlock table.rep_.file options
                (ext.BlockHandleDecodeFrom index_value).2).2),
            Event.CacheInsert
               (cacheKey table.rep_.cache_id (ext.BlockHandleDecodeFrom index_value).2.offset)
               (ext.NewBlock (ext.ReadBlock table.rep_.file options
                 (ext.BlockHandleDecodeFrom index_value).2).2)
               (ext.NewBlock (ext.ReadBlock table.rep_.file options
                 (ext.BlockHandleDecodeFrom index_value).2).2).size] }) := by
  rw [BlockReader_eq, fetchBlock_miss_insert _ _ _ _ _ hd hc (by simpa using hl) hr hf]
  simp [Sys.emit]

theorem BlockReader_miss_keep (hd : (ext.BlockHandleDecodeFrom index_value).1.ok = true)
    (hc : table.rep_.options.block_cache = true)
    (hl : sys.cache.Lookup (cacheKey table.rep_.cache_id
            (ext.BlockHandleDecodeFrom index_value).2.offset) = none)
    (hr : (ext.ReadBlock table.rep_.file options
            (ext.BlockHandleDecodeFrom index_value).2).1.ok = true)
    (hf : ((ext.ReadBlock table.rep_.file options
            (ext.BlockHandleDecodeFrom index_value).2).2.cachable && options.fill_cache) = false) :
    BlockReader ext table options index_value sys =
      (((ext.NewBlock (ext.ReadBlock table.rep_.file options
            (ext.BlockHandleDecodeFrom index_value).2).2).NewIterator
          table.rep_.options.comparator).RegisterCleanup
          (Cleanup.DeleteBlock (ext.NewBlock (ext.ReadBlock table.rep_.file options
            (ext.BlockHandleDecodeFrom index_value).2).2)),
        { cache := sys.cache,
          log := sys.log ++ [Event.BlockReader index_value,
            Event.CacheLookup (cacheKey table.rep_.cache_id
                (ext.BlockHandleDecodeFrom index_value).2.offset) false,
            Event.ReadBlock (ext.BlockHandleDecodeFrom index_value).2,
            Event.NewBlock (ext.NewBlock (ext.ReadBlock table.rep_.file options
                (ext.BlockHandleDecodeFrom index_value).2).2)] }) := by
  rw [BlockReader_eq, fetchBlock_miss_keep _ _ _ _ _ hd hc (by simpa using hl) hr hf]
  simp [Sys.emit]

end readerPaths

/-- C9: with a block cache configured, `Table::BlockReader` reads the file exactly when its cache
lookup for `(cache_id, offset)` misses (the handle having decoded), and inserts the freshly read
block under that key exactly when moreover the read succeeded, the contents are cachable and
`fill_cache` is set. So after a fetch that produced a block (a hit, or a successful read of
cachable contents with `fill_cache`), a second fetch of the same index value by the same table,
under any read options, logs no file read and returns the same cursor as the first. -/
theorem BlockReader_cache_correct (ext : External) (table : Table) (options options2 : ReadOptions)
    (index_value : Slice) (sys : Sys) (hc : table.rep_.options.block_cache = true) :
    let d := ext.BlockHandleDecodeFrom index_value
    let key := cacheKey table.rep_.cache_id d.2.offset
    let rb := ext.ReadBlock table.rep_.file options d.2
    let r := BlockReader ext table options index_value sys
    let evs := Sys.since sys r.2
    let r2 := BlockReader ext table options2 index_value r.2
    (Event.ReadBlock d.2 ∈ evs ↔ Event.CacheLookup key false ∈ evs) ∧
    ((∃ h, Event.ReadBlock h ∈ evs) ↔ (d.1.ok = true ∧ sys.cache.Lookup key = none)) ∧
    ((∃ k b c, Event.CacheInsert k b c ∈ evs) ↔
      (d.1.ok = true ∧ sys.cache.Lookup key = none ∧ rb.1.ok = true ∧ rb.2.cachable = true ∧
        options.fill_cache = true)) ∧
    (Event.CacheInsert key (ext.NewBlock rb.2) (ext.NewBlock rb.2).size ∈ evs ↔
      (d.1.ok = true ∧ sys.cache.Lookup key = none ∧ rb.1.ok = true ∧ rb.2.cachable = true ∧
        options.fill_cache = true)) ∧
    (d.1.ok = true →
      (sys.cache.Lookup key = none →
        rb.1.ok = true ∧ rb.2.cachable = true ∧ options.fill_cache = true) →
      (∀ h, Event.ReadBlock h ∉ Sys.since r.2 r2.2) ∧ r2.1 = r.1) := by
  intro d key rb r evs r2
  cases hd : d.1.ok with
  | false =>
    have hr : r = _ := BlockReader_decode_fails ext table options index_value sys hd
    have hl : r.2.log = sys.log ++ [Event.BlockReader index_value] := by rw [hr]
    simp [evs, since_of_log hl]
  | true =>
    cases hl : sys.cache.Lookup key with
    | some h =>
      have hr : r = _ := BlockReader_hit ext table options index_value sys hd hc h hl
      have hlog : r.2.log = sys.log ++ [Event.BlockReader index_value,
            Event.CacheLookup key true] := by rw [hr]
      have hc2 : r.2.cache.Lookup key = some h := by rw [hr]; exact hl
      have hr2 : r2 = _ := BlockReader_hit ext table options2 index_value r.2 hd hc h hc2
      have hlog2 : r2.2.log = r.2.log ++ [Event.BlockReader index_value,
            Event.CacheLookup key true] := by rw [hr2]
      refine ⟨?_, ?_, ?_, ?_, ?_⟩
      · simp [evs, since_of_log hlog]
      · simp [evs, since_of_log hlog]
      · simp [evs, since_of_log hlog]
      · simp [evs, since_of_log hlog]
      · intro _ _
        refine ⟨?_, ?_⟩
        · simp [since_of_log hlog2]
        · rw [hr2, hr]
    | none =>
      cases hrd : rb.1.ok with
      | false =>
        have hr : r = _ := BlockReader_miss_fails ext table options index_value sys hd hc hl hrd
        have hlog : r.2.log = sys.log ++ [Event.BlockReader index_value,
            Event.CacheLookup key false, Event.ReadBlock d.2] := by rw [hr]
        refine ⟨?_, ?_, ?_, ?_, ?_⟩
        · simp [evs, since_of_log hlog]
        · simp [evs, since_of_log hlog]
        · simp [evs, since_of_log hlog]
        · simp [evs, since_of_log hlog]
        · intro _ h
          exact absurd (h rfl).1 (by simp)
      | true =>
        cases hf : (rb.2.cachable && options.fill_cache) with
        | false =>
          have hr : r = _ :=
            BlockReader_miss_keep ext table options index_value sys hd hc hl hrd hf
          have hlog : r.2.log = sys.log ++ [Event.BlockReader index_value,
              Event.CacheLookup key false, Event.ReadBlock d.2,
              Event.NewBlock (ext.NewBlock rb.2)] := by rw [hr]
          have hf' : ¬ (rb.2.cachable = true ∧ options.fill_cache = true) := by
            simpa using hf
          refine ⟨?_, ?_, ?_, ?_, ?_⟩
          · simp [evs, since_of_log hlog]
          · simp [evs, since_of_log hlog]
          · simp only [evs, since_of_log hlog]
            simp
            intro h1
            cases h2 : options.fill_cache with
            | false => rfl
            | true => exact absurd ⟨h1, h2⟩ hf'
          · simp only [evs, since_of_log hlog]
            simp
            intro h1
            cases h2 : options.fill_cache with
            | false => rfl
            | true => exact absurd ⟨h1, h2⟩ hf'
          · intro _ h
            exact absurd (h rfl).2 hf'
        | true =>
          have hr : r = _ :=
            BlockReader_miss_insert ext table options index_value sys hd hc hl hrd hf
          have hlog : r.2.log = sys.log ++ [Event.BlockReader index_value,
              Event.CacheLookup key false, Event.ReadBlock d.2,
              Event.NewBlock (ext.NewBlock rb.2),
              Event.CacheInsert key (ext.NewBlock rb.2) (ext.NewBlock rb.2).size] := by rw [hr]
          have hf' : rb.2.cachable = true ∧ options.fill_cache = true := by
            simpa using hf
          have hc2 : r.2.cache.Lookup key
              = some { key := key, value := ext.NewBlock rb.2 } := by
            rw [hr]; exact Lookup_Insert_same _ _ _
          have hr2 : r2 = _ := BlockReader_hit ext table options2 index_value r.2 hd hc _ hc2
          have hlog2 : r2.2.log = r.2.log ++ [Event.BlockReader index_value,
                Event.CacheLookup key true] := by rw [hr2]
          refine ⟨?_, ?_, ?_, ?_, ?_⟩
          · simp [evs, since_of_log hlog]
          · simp [evs, since_of_log hlog]
          · simp [evs, since_of_log hlog, hf'.1, hf'.2]
          · simp [evs, since_of_log hlog, hf'.1, hf'.2]
          · intro _ _
            refine ⟨?_, ?_⟩
            · simp [since_of_log hlog2]
            · rw [hr2, hr]

/-- Witness of C9: the sample table with a cache, fetching the block at offset 0 twice. -/
theorem BlockReader_cache_correct_witness :
    (sampleTable true none).rep_.options.block_cache = true ∧
    (∀ h, Event.ReadBlock h ∉ Sys.since
        (BlockReader sampleExt (sampleTable true none) ReadOptions.default [0, 6]
          (Sys.start emptyCache)).2
        (BlockReader sampleExt (sampleTable true none) ReadOptions.default [0, 6]
          (BlockReader sampleExt (sampleTable true none) ReadOptions.default [0, 6]
            (Sys.start emptyCache)).2).2) ∧
    (BlockReader sampleExt (sampleTable true none) ReadOptions.default [0, 6]
        (BlockReader sampleExt (sampleTable true none) ReadOptions.default [0, 6]
          (Sys.start emptyCache)).2).1 =
      (BlockReader sampleExt (sampleTable true none) ReadOptions.default [0, 6]
        (Sys.start emptyCache)).1 :=
  ⟨by decide,
    (BlockReader_cache_correct sampleExt (sampleTable true none) ReadOptions.default
      ReadOptions.default [0, 6] (Sys.start emptyCache) (by decide)).2.2.2.2 (by decide)
      (fun _ => ⟨by decide, by decide, by decide⟩)⟩

/-! ### Cleanups -/

theorem Tally_nil : Tally 0 [] := by
  constructor <;> simp

theorem Tally_append {n m : Nat} {a b : List Event} (ha : Tally n a) (hb : Tally m b) :
    Tally (n + m) (a ++ b) := by
  obtain ⟨a1, a2, a3, a4, a5⟩ := ha
  obtain ⟨b1, b2, b3, b4, b5⟩ := hb
  constructor <;> simp only [List.countP_append] <;> omega

theorem fetchAndDiscard_cleanup (ext : External) (table : Table)
    (req : ReadOptions × Slice × Option Slice) (sys : Sys) :
    fetchAndDiscard ext table req sys =
      (BlockReader ext table req.1 req.2.1 sys).1.delete
        (BlockReader ext table req.1 req.2.1 sys).2 := by
  unfold fetchAndDiscard
  simp only []
  cases req.2.2 <;> simp [delete_eq]

/-- The cursor of a fetch carries exactly the cleanup the fetch owes. -/
theorem BlockReader_owed (ext : External) (table : Table) (options : ReadOptions)
    (index_value : Slice) (sys : Sys) :
    (BlockReader ext table options index_value sys).1.cleanup
      = owedCleanup ext table options index_value sys := by
  unfold owedCleanup
  cases hd : (ext.BlockHandleDecodeFrom index_value).1.ok with
  | false =>
    rw [BlockReader_decode_fails _ _ _ _ _ hd]
    simp [NewErrorIterator]
  | true =>
    cases hc : table.rep_.options.block_cache with
    | false =>
      cases hr : (ext.ReadBlock table.rep_.file options
            (ext.BlockHandleDecodeFrom index_value).2).1.ok with
      | false =>
        rw [BlockReader_nocache_fails _ _ _ _ _ hd hc hr]
        simp [NewErrorIterator]
      | true =>
        rw [BlockReader_nocache_ok _ _ _ _ _ hd hc hr]
        simp [Iterator.RegisterCleanup]
    | true =>
      cases hl : sys.cache.Lookup (cacheKey table.rep_.cache_id
            (ext.BlockHandleDecodeFrom index_value).2.offset) with
      | some h =>
        rw [BlockReader_hit _ _ _ _ _ hd hc h hl]
        simp [Iterator.RegisterCleanup]
      | none =>
        cases hr : (ext.ReadBlock table.rep_.file options
            (ext.BlockHandleDecodeFrom index_value).2).1.ok with
        | false =>
          rw [BlockReader_miss_fails _ _ _ _ _ hd hc hl hr]
          simp [NewErrorIterator]
        | true =>
          cases hf : ((ext.ReadBlock table.rep_.file options
              (ext.BlockHandleDecodeFrom index_value).2).2.cachable && options.fill_cache) with
          | false =>
            rw [BlockReader_miss_keep _ _ _ _ _ hd hc hl hr hf]
            simp [Iterator.RegisterCleanup]
          | true =>
            rw [BlockReader_miss_insert _ _ _ _ _ hd hc hl hr hf]
            simp [Iterator.RegisterCleanup, Cache.Insert]

/-- A fetch itself logs no cleanup call. -/
theorem BlockReader_logs_no_cleanup (ext : External) (table : Table) (options : ReadOptions)
    (index_value : Slice) (sys : Sys) :
    ∃ evs, (BlockReader ext table options index_value sys).2.log = sys.log ++ evs ∧
      evs.filter Event.isCleanup = [] ∧ evs.countP Event.isFetch = 1 ∧
      evs.countP Event.isRelease = 0 ∧ evs.countP Event.isDelete = 0 ∧
      (BlockReader ext table options index_value sys).1.cleanup.countP
          (fun c => c.event.isRelease)
        = evs.countP Event.isHit + evs.countP Event.isInsert ∧
      (BlockReader ext table options index_value sys).1.cleanup.countP
          (fun c => c.event.isDelete) + evs.countP Event.isInsert
        = evs.countP Event.isNewBlock ∧
      evs.countP Event.isHit + evs.countP Event.isNewBlock ≤ 1 := by
  cases hd : (ext.BlockHandleDecodeFrom index_value).1.ok with
  | false =>
    rw [BlockReader_decode_fails _ _ _ _ _ hd]
    refine ⟨_, rfl, ?_⟩
    simp [Event.isCleanup, Event.isFetch, Event.isRelease, Event.isDelete, Event.isHit,
      Event.isNewBlock, Event.isInsert, NewErrorIterator]
  | true =>
    cases hc : table.rep_.options.block_cache with
    | false =>
      cases hr : (ext.ReadBlock table.rep_.file options
            (ext.BlockHandleDecodeFrom index_value).2).1.ok with
      | false =>
        rw [BlockReader_nocache_fails _ _ _ _ _ hd hc hr]
        refine ⟨_, rfl, ?_⟩
        simp [Event.isCleanup, Event.isFetch, Event.isRelease, Event.isDelete, Event.isHit,
          Event.isNewBlock, Event.isInsert, NewErrorIterator]
      | true =>
        rw [BlockReader_nocache_ok _ _ _ _ _ hd hc hr]
        refine ⟨_, rfl, ?_⟩
        simp [Event.isCleanup, Event.isFetch, Event.isRelease, Event.isDelete, Event.isHit,
          Event.isNewBlock, Event.isInsert, Iterator.RegisterCleanup, Cleanup.event]
    | true =>
      cases hl : sys.cache.Lookup (cacheKey table.rep_.cache_id
            (ext.BlockHandleDecodeFrom index_value).2.offset) with
      | some h =>
        rw [BlockReader_hit _ _ _ _ _ hd hc h hl]
        refine ⟨_, rfl, ?_⟩
        simp [Event.isCleanup, Event.isFetch, Event.isRelease, Event.isDelete, Event.isHit,
          Event.isNewBlock, Event.isInsert, Iterator.RegisterCleanup, Cleanup.event]
      | none =>
        cases hr : (ext.ReadBlock table.rep_.file options
            (ext.BlockHandleDecodeFrom index_value).2).1.ok with
        | false =>
          rw [BlockReader_miss_fails _ _ _ _ _ hd hc hl hr]
          refine ⟨_, rfl, ?_⟩
          simp [Event.isCleanup, Event.isFetch, Event.isRelease, Event.isDelete, Event.isHit,
            Event.isNewBlock, Event.isInsert, NewErrorIterator]
        | true =>
          cases hf : ((ext.ReadBlock table.rep_.file options
              (ext.BlockHandleDecodeFrom index_value).2).2.cachable && options.fill_cache) with
          | false =>
            rw [BlockReader_miss_keep _ _ _ _ _ hd hc hl hr hf]
            refine ⟨_, rfl, ?_⟩
            simp [Event.isCleanup, Event.isFetch, Event.isRelease, Event.isDelete, Event.isHit,
              Event.isNewBlock, Event.isInsert, Iterator.RegisterCleanup, Cleanup.event]
          | true =>
            rw [BlockReader_miss_insert _ _ _ _ _ hd hc hl hr hf]
            refine ⟨_, rfl, ?_⟩
            simp [Event.isCleanup, Event.isFetch, Event.isRelease, Event.isDelete, Event.isHit,
              Event.isNewBlock, Event.isInsert, Iterator.RegisterCleanup, Cleanup.event]

theorem cleanup_event_flags (c : Cleanup) :
    c.event.isCleanup = true ∧ c.event.isFetch = false ∧ c.event.isHit = false ∧
    c.event.isInsert = false ∧ c.event.isNewBlock = false := by
  cases c <;> exact ⟨rfl, rfl, rfl, rfl, rfl⟩

theorem cleanup_events (cs : List Cleanup) :
    (cs.map Cleanup.event).filter Event.isCleanup = cs.map Cleanup.event ∧
    (cs.map Cleanup.event).countP Event.isFetch = 0 ∧
    (cs.map Cleanup.event).countP Event.isHit = 0 ∧
    (cs.map Cleanup.event).countP Event.isInsert = 0 ∧
    (cs.map Cleanup.event).countP Event.isNewBlock = 0 ∧
    (cs.map Cleanup.event).countP Event.isRelease = cs.countP (fun c => c.event.isRelease) ∧
    (cs.map Cleanup.event).countP Event.isDelete = cs.countP (fun c => c.event.isDelete) := by
  induction cs with
  | nil => simp
  | cons c cs ih =>
    obtain ⟨h1, h2, h3, h4, h5, h6, h7⟩ := ih
    obtain ⟨f1, f2, f3, f4, f5⟩ := cleanup_event_flags c
    refine ⟨?_, ?_, ?_, ?_, ?_, ?_, ?_⟩
    · rw [List.map_cons, List.filter_cons, f1, if_pos rfl, h1]
    · rw [List.map_cons, List.countP_cons, f2, h2]; rfl
    · rw [List.map_cons, List.countP_cons, f3, h3]; rfl
    · rw [List.map_cons, List.countP_cons, f4, h4]; rfl
    · rw [List.map_cons, List.countP_cons, f5, h5]; rfl
    · rw [List.map_cons, List.countP_cons, List.countP_cons, h6]
    · rw [List.map_cons, List.countP_cons, List.countP_cons, h7]

theorem fetchAndDiscard_tally (ext : External) (table : Table)
    (req : ReadOptions × Slice × Option Slice) (sys : Sys) :
    ∃ evs, (fetchAndDiscard ext table req sys).log = sys.log ++ evs ∧ Tally 1 evs ∧
      evs.filter Event.isCleanup
        = (owedCleanup ext table req.1 req.2.1 sys).map Cleanup.event := by
  rw [fetchAndDiscard_cleanup, delete_log]
  obtain ⟨evs, h1, h2, h3, h4, h5, h6, h7, h8⟩ :=
    BlockReader_logs_no_cleanup ext table req.1 req.2.1 sys
  obtain ⟨c1, c2, c3, c4, c5, c6, c7⟩ :=
    cleanup_events (BlockReader ext table req.1 req.2.1 sys).1.cleanup
  refine ⟨evs ++ (BlockReader ext table req.1 req.2.1 sys).1.cleanup.map Cleanup.event,
    by rw [h1, List.append_assoc], ?_, ?_⟩
  · constructor <;> simp only [List.countP_append] <;> omega
  · rw [List.filter_append, h2, c1, BlockReader_owed, List.nil_append]

theorem fetchAll_tally (ext : External) (table : Table)
    (reqs : List (ReadOptions × Slice × Option Slice)) (sys : Sys) :
    ∃ evs, (fetchAll ext table reqs sys).log = sys.log ++ evs ∧ Tally reqs.length evs ∧
      evs.filter Event.isCleanup = (owedAll ext table reqs sys).map Cleanup.event := by
  induction reqs generalizing sys with
  | nil => exact ⟨[], by simp [fetchAll], Tally_nil, by simp [owedAll]⟩
  | cons req reqs ih =>
    obtain ⟨e1, h1, t1, o1⟩ := fetchAndDiscard_tally ext table req sys
    obtain ⟨e2, h2, t2, o2⟩ := ih (fetchAndDiscard ext table req sys)
    refine ⟨e1 ++ e2, ?_, ?_, ?_⟩
    · simp [fetchAll, h2, h1]
    · have := Tally_append t1 t2
      simpa [Nat.add_comm] using this
    · simp [owedAll, List.filter_append, o1, o2]

/-- C10, as the code has it. A fetch that fails returns an error cursor carrying the failing
status (of the handle decode, or of the block read) with no cleanup, and has acquired nothing.
A fetch that produces a block returns a cursor over that block with exactly one cleanup: the
release of the very handle `Lookup` returned on a hit, the release of the very handle `Insert`
returned when the block read was inserted, the deletion of the very block allocated otherwise;
in every case the cleanup the fetch owes by the spec (`owedCleanup`). Seeking the cursor does
not change its cleanups, and discarding it logs exactly these cleanups, once each. So over N
fetches, each cursor discarded, the cleanup calls logged are, in order, the cleanups owed fetch
by fetch; they number the fetches that produced a block (at most N), handles released balance
handles acquired and blocks deleted balance blocks allocated and not handed to the cache. -/
theorem BlockReader_cleanup (ext : External) (table : Table) (options : ReadOptions)
    (index_value : Slice) (sys : Sys) (reqs : List (ReadOptions × Slice × Option Slice)) :
    let d := ext.BlockHandleDecodeFrom index_value
    let key := cacheKey table.rep_.cache_id d.2.offset
    let rb := ext.ReadBlock table.rep_.file options d.2
    let nb := ext.NewBlock rb.2
    let cmp := table.rep_.options.comparator
    let r := BlockReader ext table options index_value sys
    let evs := Sys.since sys r.2
    (d.1.ok = false →
      r.1 = NewErrorIterator d.1 ∧ r.1.cleanup = [] ∧ r.2.cache = sys.cache ∧
      evs = [Event.BlockReader index_value]) ∧
    (d.1.ok = true →
      (table.rep_.options.block_cache = false ∨ sys.cache.Lookup key = none) →
      rb.1.ok = false →
      r.1 = NewErrorIterator rb.1 ∧ r.1.cleanup = [] ∧ r.2.cache = sys.cache ∧
      evs.countP Event.isHit = 0 ∧ evs.countP Event.isInsert = 0 ∧
      evs.countP Event.isNewBlock = 0) ∧
    (d.1.ok = true → table.rep_.options.block_cache = true →
      ∀ h, sys.cache.Lookup key = some h →
      r.1 = (h.value.NewIterator cmp).RegisterCleanup (Cleanup.ReleaseBlock h) ∧
      r.1.cleanup = [Cleanup.ReleaseBlock h] ∧ r.2.cache = sys.cache ∧
      evs = [Event.BlockReader index_value, Event.CacheLookup key true]) ∧
    (d.1.ok = true → table.rep_.options.block_cache = true → sys.cache.Lookup key = none →
      rb.1.ok = true → rb.2.cachable = true → options.fill_cache = true →
      r.1 = (nb.NewIterator cmp).RegisterCleanup
        (Cleanup.ReleaseBlock (sys.cache.Insert key nb).1) ∧
      r.1.cleanup = [Cleanup.ReleaseBlock (sys.cache.Insert key nb).1] ∧
      r.2.cache = (sys.cache.Insert key nb).2 ∧
      evs = [Event.BlockReader index_value, Event.CacheLookup key false, Event.ReadBlock d.2,
        Event.NewBlock nb, Event.CacheInsert key nb nb.size]) ∧
    (d.1.ok = true → rb.1.ok = true →
      (table.rep_.options.block_cache = false ∨
        (sys.cache.Lookup key = none ∧
          (rb.2.cachable = false ∨ options.fill_cache = false))) →
      r.1 = (nb.NewIterator cmp).RegisterCleanup (Cleanup.DeleteBlock nb) ∧
      r.1.cleanup = [Cleanup.DeleteBlock nb] ∧ r.2.cache = sys.cache ∧
      Event.NewBlock nb ∈ evs ∧ evs.countP Event.isNewBlock = 1 ∧
      evs.countP Event.isInsert = 0 ∧ evs.countP Event.isHit = 0) ∧
    r.1.cleanup = owedCleanup ext table options index_value sys ∧
    (r.1.cleanup.length = evs.countP Event.isHit + evs.countP Event.isNewBlock ∧
      r.1.cleanup.length ≤ 1) ∧
    (r.1.cleanup = [] ↔
      (d.1.ok = false ∨
        ((table.rep_.options.block_cache = false ∨ sys.cache.Lookup key = none) ∧
          rb.1.ok = false))) ∧
    (∀ k, (r.1.Seek k).cleanup = r.1.cleanup) ∧
    (∀ target : Option Slice,
      Sys.since r.2 (fetchAndDiscard ext table (options, index_value, target) sys)
        = r.1.cleanup.map Cleanup.event ∧
      (fetchAndDiscard ext table (options, index_value, target) sys).cache = r.2.cache) ∧
    (∃ all, (fetchAll ext table reqs sys).log = sys.log ++ all ∧ Tally reqs.length all ∧
      all.filter Event.isCleanup = (owedAll ext table reqs sys).map Cleanup.event) := by
  intro d key rb nb cmp r evs
  refine ⟨?_, ?_, ?_, ?_, ?_, BlockReader_owed ext table options index_value sys, ?_, ?_,
    fun _ => rfl, ?_, fetchAll_tally ext table reqs sys⟩
  · intro hd
    have hr : r = _ := BlockReader_decode_fails ext table options index_value sys hd
    have hl : r.2.log = sys.log ++ [Event.BlockReader index_value] := by rw [hr]
    refine ⟨by rw [hr], by rw [hr]; rfl, by rw [hr], since_of_log hl⟩
  · intro hd hmiss hrd
    cases hc : table.rep_.options.block_cache with
    | false =>
      have hr : r = _ := BlockReader_nocache_fails ext table options index_value sys hd hc hrd
      have hl : r.2.log = sys.log ++ [Event.BlockReader index_value,
          Event.ReadBlock d.2] := by rw [hr]
      refine ⟨by rw [hr], by rw [hr]; rfl, by rw [hr], ?_⟩
      simp [evs, since_of_log hl, Event.isHit, Event.isInsert, Event.isNewBlock]
    | true =>
      have hlk : sys.cache.Lookup key = none := by
        rcases hmiss with h | h
        · rw [hc] at h; cases h
        · exact h
      have hr : r = _ :=
        BlockReader_miss_fails ext table options index_value sys hd hc hlk hrd
      have hl : r.2.log = sys.log ++ [Event.BlockReader index_value,
          Event.CacheLookup key false, Event.ReadBlock d.2] := by rw [hr]
      refine ⟨by rw [hr], by rw [hr]; rfl, by rw [hr], ?_⟩
      simp [evs, since_of_log hl, Event.isHit, Event.isInsert, Event.isNewBlock]
  · intro hd hc h hlk
    have hr : r = _ := BlockReader_hit ext table options index_value sys hd hc h hlk
    have hl : r.2.log = sys.log ++ [Event.BlockReader index_value,
        Event.CacheLookup key true] := by rw [hr]
    refine ⟨by rw [hr], by rw [hr]; simp [Iterator.RegisterCleanup], by rw [hr],
      since_of_log hl⟩
  · intro hd hc hlk hrd hca hfi
    have hf : (rb.2.cachable && options.fill_cache) = true := by simp [hca, hfi]
    have hr : r = _ :=
      BlockReader_miss_insert ext table options index_value sys hd hc hlk hrd hf
    have hl : r.2.log = sys.log ++ [Event.BlockReader index_value,
        Event.CacheLookup key false, Event.ReadBlock d.2, Event.NewBlock nb,
        Event.CacheInsert key nb nb.size] := by rw [hr]
    refine ⟨by rw [hr]; rfl, by rw [hr]; simp [Iterator.RegisterCleanup, Cache.Insert],
      by rw [hr], since_of_log hl⟩
  · intro hd hrd hun
    cases hc : table.rep_.options.block_cache with
    | false =>
      have hr : r = _ := BlockReader_nocache_ok ext table options index_value sys hd hc hrd
      have hl : r.2.log = sys.log ++ [Event.BlockReader index_value,
          Event.ReadBlock d.2, Event.NewBlock nb] := by rw [hr]
      refine ⟨by rw [hr], by rw [hr]; simp [Iterator.RegisterCleanup], by rw [hr], ?_⟩
      simp [evs, since_of_log hl, Event.isHit, Event.isInsert, Event.isNewBlock]
    | true =>
      have hun' : sys.cache.Lookup key = none ∧
          (rb.2.cachable = false ∨ options.fill_cache = false) := by
        rcases hun with h | h
        · rw [hc] at h; cases h
        · exact h
      have hf : (rb.2.cachable && options.fill_cache) = false := by
        rcases hun'.2 with h | h <;> simp [h]
      have hr : r = _ :=
        BlockReader_miss_keep ext table options index_value sys hd hc hun'.1 hrd hf
      have hl : r.2.log = sys.log ++ [Event.BlockReader index_value,
          Event.CacheLookup key false, Event.ReadBlock d.2, Event.NewBlock nb] := by rw [hr]
      refine ⟨by rw [hr], by rw [hr]; simp [Iterator.RegisterCleanup], by rw [hr], ?_⟩
      simp [evs, since_of_log hl, Event.isHit, Event.isInsert, Event.isNewBlock]
  · obtain ⟨l, h1, -, -, -, -, h6, h7, h8⟩ :=
      BlockReader_logs_no_cleanup ext table options index_value sys
    have hev : evs = l := since_of_log h1
    have hlen : r.1.cleanup.length = r.1.cleanup.countP (fun c => c.event.isRelease)
        + r.1.cleanup.countP (fun c => c.event.isDelete) := by
      generalize r.1.cleanup = cs
      induction cs with
      | nil => rfl
      | cons c cs ih =>
        cases c <;>
          simp [List.countP_cons, Cleanup.event, Event.isRelease, Event.isDelete, ih] <;> omega
    rw [hev]
    have h6' : r.1.cleanup.countP (fun c => c.event.isRelease)
        = l.countP Event.isHit + l.countP Event.isInsert := h6
    have h7' : r.1.cleanup.countP (fun c => c.event.isDelete) + l.countP Event.isInsert
        = l.countP Event.isNewBlock := h7
    constructor <;> omega
  · rw [BlockReader_owed]
    unfold owedCleanup
    cases hd : d.1.ok with
    | false => simp [d] at hd; simp [hd]
    | true =>
      simp only [d] at hd
      cases hc : table.rep_.options.block_cache with
      | false =>
        cases hrd : rb.1.ok with
        | false => simp only [rb, d] at hrd; simp [hd, hc, hrd]
        | true => simp only [rb, d] at hrd; simp [hd, hc, hrd]
      | true =>
        cases hlk : sys.cache.Lookup key with
        | some h => simp only [key, d] at hlk; simp [hd, hc, hlk]
        | none =>
          simp only [key, d] at hlk
          cases hrd : rb.1.ok with
          | false => simp only [rb, d] at hrd; simp [hd, hc, hlk, hrd]
          | true =>
            simp only [rb, d] at hrd
            simp only [hd, hc, hlk, hrd, if_true]
            split <;> simp
  · intro target
    have hfd : fetchAndDiscard ext table (options, index_value, target) sys
        = r.1.delete r.2 :=
      fetchAndDiscard_cleanup ext table (options, index_value, target) sys
    rw [hfd]
    exact ⟨since_of_log (delete_log _ _), delete_cache _ _⟩

/-- C10 refuted as stated: on the sample table, a fetch of an index value that does not decode
returns a cursor carrying no cleanup, and one such fetch followed by the discard of its cursor
logs no cleanup call at all (one fetch, zero cleanups). -/
theorem BlockReader_failed_fetch_has_no_cleanup :
    ¬ ((BlockReader sampleExt (sampleTable true none) ReadOptions.default []
          (Sys.start emptyCache)).1.cleanup.length = 1) ∧
    (Sys.since (Sys.start emptyCache)
        (fetchAll sampleExt (sampleTable true none) [(ReadOptions.default, [], none)]
          (Sys.start emptyCache))).countP (fun e => e.isRelease || e.isDelete) = 0 := by
  decide

/-! ### Seeking in sorted entries -/

theorem lt_of_le_of_lt_cmp {cmp : Comparator} (ho : IsTotalOrder cmp) {a b c : Slice}
    (hab : cmp a b ≤ 0) (hbc : cmp b c < 0) : cmp a c < 0 := by
  by_contra hac
  have hca : cmp c a ≤ 0 := by
    by_contra h
    have : cmp a c < 0 := (ho.antisymm a c).mpr (by omega)
    exact hac this
  have hcb : cmp c b ≤ 0 := ho.trans c a b hca hab
  have : 0 < cmp c b := (ho.antisymm b c).mp hbc
  omega

theorem ge_of_le_cmp {cmp : Comparator} (ho : IsTotalOrder cmp) {a b : Slice}
    (hab : cmp a b ≤ 0) : 0 ≤ cmp b a := by
  by_contra h
  have : 0 < cmp a b := (ho.antisymm b a).mp (by omega)
  omega

theorem seek_strictlySorted {cmp : Comparator} (ho : IsTotalOrder cmp)
    (es : List (Slice × Slice)) (hs : strictlySorted cmp es = true) (x : Slice × Slice)
    (hx : x ∈ es) :
    es.find? (fun e => decide (0 ≤ cmp e.1 x.1)) = some x := by
  induction es with
  | nil => cases hx
  | cons e es ih =>
    simp only [strictlySorted, Bool.and_eq_true, List.all_eq_true, decide_eq_true_eq] at hs
    rcases List.mem_cons.mp hx with h | h
    · subst h
      simp [List.find?, ho.refl]
    · have hlt : cmp e.1 x.1 < 0 := hs.1 x h
      have : decide (0 ≤ cmp e.1 x.1) = false := by simp; omega
      simp only [List.find?, this]
      exact ih hs.2 h

theorem indexWellFormed_cons (ext : External) (table : Table) (options : ReadOptions)
    (e : Slice × Slice) (rest : List (Slice × Slice))
    (h : indexWellFormed ext table options (e :: rest) = true) :
    (∃ b, dataBlock ext table options e.2 = some b ∧ b.status.ok = true ∧
      strictlySorted table.rep_.options.comparator b.entries = true ∧
      ∀ x ∈ b.entries, table.rep_.options.comparator x.1 e.1 ≤ 0) ∧
    (∀ n rest', rest = n :: rest' →
      table.rep_.options.comparator e.1 n.1 ≤ 0 ∧
      ∀ nb, dataBlock ext table options n.2 = some nb →
        ∀ x ∈ nb.entries, table.rep_.options.comparator e.1 x.1 < 0) ∧
    indexWellFormed ext table options rest = true := by
  simp only [indexWellFormed, Bool.and_eq_true] at h
  obtain ⟨⟨h1, h2⟩, h3⟩ := h
  refine ⟨?_, ?_, h3⟩
  · cases hb : dataBlock ext table options e.2 with
    | none => rw [hb] at h1; cases h1
    | some b =>
      rw [hb] at h1
      simp only [Bool.and_eq_true, List.all_eq_true, decide_eq_true_eq] at h1
      exact ⟨b, rfl, h1.1.1, h1.1.2, h1.2⟩
  · intro n rest' hrest
    subst hrest
    simp only [Bool.and_eq_true, decide_eq_true_eq] at h2
    refine ⟨h2.1, ?_⟩
    intro nb hnb x hx
    have h22 := h2.2
    rw [hnb] at h22
    simp only [List.all_eq_true, decide_eq_true_eq] at h22
    exact h22 x hx

theorem head_lt_later (ext : External) (table : Table) (options : ReadOptions)
    (ho : IsTotalOrder table.rep_.options.comparator)
    (rest : List (Slice × Slice)) :
    ∀ e0, indexWellFormed ext table options (e0 :: rest) = true →
      ∀ e ∈ rest, ∀ b, dataBlock ext table options e.2 = some b →
        ∀ x ∈ b.entries, table.rep_.options.comparator e0.1 x.1 < 0 := by
  induction rest with
  | nil => intro e0 _ e he; cases he
  | cons n rest' ih =>
    intro e0 hwf e he b hb x hx
    obtain ⟨-, hnext, hrest⟩ := indexWellFormed_cons ext table options e0 (n :: rest') hwf
    obtain ⟨hle, hnb⟩ := hnext n rest' rfl
    rcases List.mem_cons.mp he with h | h
    · subst h
      exact hnb b hb x hx
    · exact lt_of_le_of_lt_cmp ho hle (ih n hrest e h b hb x hx)

theorem index_seek (ext : External) (table : Table) (options : ReadOptions)
    (ho : IsTotalOrder table.rep_.options.comparator)
    (es : List (Slice × Slice)) (hwf : indexWellFormed ext table options es = true)
    (e : Slice × Slice) (he : e ∈ es) (b : Block)
    (hb : dataBlock ext table options e.2 = some b) (x : Slice × Slice) (hx : x ∈ b.entries) :
    ∃ e', es.find? (fun i => decide (0 ≤ table.rep_.options.comparator i.1 x.1)) = some e' ∧
      e' ∈ es ∧ dataBlock ext table options e'.2 = some b := by
  induction es with
  | nil => cases he
  | cons e0 rest ih =>
    obtain ⟨⟨b0, hb0, -, -, hmax⟩, -, hrest⟩ := indexWellFormed_cons ext table options e0 rest hwf
    rcases List.mem_cons.mp he with h | h
    · subst h
      rw [hb] at hb0
      cases hb0
      have : 0 ≤ table.rep_.options.comparator e.1 x.1 := ge_of_le_cmp ho (hmax x hx)
      exact ⟨e, by simp [List.find?, this], List.mem_cons_self _ _, hb⟩
    · have hlt := head_lt_later ext table options ho rest e0 hwf e h b hb x hx
      have : decide (0 ≤ table.rep_.options.comparator e0.1 x.1) = false := by simp; omega
      obtain ⟨e', h1, h2, h3⟩ := ih hrest h
      exact ⟨e', by simp only [List.find?, this]; exact h1, List.mem_cons_of_mem _ h2, h3⟩

/-! ### `Table::InternalGet` on a block that reads -/

theorem dataBlock_some (ext : External) (table : Table) (options : ReadOptions)
    (index_value : Slice) (b : Block) (hb : dataBlock ext table options index_value = some b) :
    (ext.BlockHandleDecodeFrom index_value).1.ok = true ∧
    (ext.ReadBlock table.rep_.file options (ext.BlockHandleDecodeFrom index_value).2).1.ok = true ∧
    b = ext.NewBlock
      (ext.ReadBlock table.rep_.file options (ext.BlockHandleDecodeFrom index_value).2).2 := by
  unfold dataBlock at hb
  split at hb
  · split at hb
    · rename_i h1 h2
      cases hb
      exact ⟨h1, h2, rfl⟩
    · cases hb
  · cases hb

theorem BlockReader_of_dataBlock (ext : External) (table : Table) (options : ReadOptions)
    (index_value : Slice) (sys : Sys) (b : Block)
    (hb : dataBlock ext table options index_value = some b)
    (hcoh : table.rep_.options.block_cache = true → ∀ h,
      sys.cache.Lookup (cacheKey table.rep_.cache_id
        (ext.BlockHandleDecodeFrom index_value).2.offset) = some h → h.value = b) :
    ∃ c evs, (BlockReader ext table options index_value sys).1
        = (b.NewIterator table.rep_.options.comparator).RegisterCleanup c ∧
      (BlockReader ext table options index_value sys).2.log = sys.log ++ evs ∧
      evs.filter Event.isSaver = [] ∧ c.event.isSaver = false := by
  obtain ⟨hd, hr, hnb⟩ := dataBlock_some ext table options index_value b hb
  cases hc : table.rep_.options.block_cache with
  | false =>
    rw [BlockReader_nocache_ok _ _ _ _ _ hd hc hr, ← hnb]
    exact ⟨_, _, rfl, rfl, by simp [Event.isSaver], rfl⟩
  | true =>
    cases hl : sys.cache.Lookup (cacheKey table.rep_.cache_id
        (ext.BlockHandleDecodeFrom index_value).2.offset) with
    | some h =>
      rw [BlockReader_hit _ _ _ _ _ hd hc h hl, hcoh hc h hl]
      exact ⟨_, _, rfl, rfl, by simp [Event.isSaver], rfl⟩
    | none =>
      cases hf : ((ext.ReadBlock table.rep_.file options
          (ext.BlockHandleDecodeFrom index_value).2).2.cachable && options.fill_cache) with
      | false =>
        rw [BlockReader_miss_keep _ _ _ _ _ hd hc hl hr hf, ← hnb]
        exact ⟨_, _, rfl, rfl, by simp [Event.isSaver], rfl⟩
      | true =>
        rw [BlockReader_miss_insert _ _ _ _ _ hd hc hl hr hf, ← hnb]
        exact ⟨_, _, rfl, rfl, by simp [Event.isSaver], rfl⟩

/-- The lookup, once the index seek has landed on an entry whose block reads and is not rejected
by the filter: the status is OK and the sink receives the first entry of that block at or after
the key, if there is one. -/
theorem InternalGet_lookup (ext : External) (table : Table) (options : ReadOptions) (k : Slice)
    (sys : Sys) (e : Slice × Slice) (b : Block)
    (hiok : table.rep_.index_block.status.ok = true)
    (hseek : table.rep_.index_block.entries.find?
      (fun i => decide (0 ≤ table.rep_.options.comparator i.1 k)) = some e)
    (hf : filterRejects ext table e.2 k = false)
    (hb : dataBlock ext table options e.2 = some b) (hbok : b.status.ok = true)
    (hcoh : table.rep_.options.block_cache = true → ∀ h,
      sys.cache.Lookup (cacheKey table.rep_.cache_id
        (ext.BlockHandleDecodeFrom e.2).2.offset) = some h → h.value = b) :
    (InternalGet ext table options k sys).1 = Status.OK ∧
    (Sys.since sys (InternalGet ext table options k sys).2).filter Event.isSaver =
      (match b.entries.find? (fun x => decide (0 ≤ table.rep_.options.comparator x.1 k)) with
        | some x => [Event.Saver x.1 x.2]
        | none => []) := by
  have hcur : ((table.rep_.index_block.NewIterator table.rep_.options.comparator).Seek k).current
      = some e := by
    simp [Block.NewIterator, hiok, Iterator.Seek, hseek]
  have hst : ((table.rep_.index_block.NewIterator table.rep_.options.comparator).Seek k).status
      = Status.OK := by
    simp [Block.NewIterator, hiok]
  have hv : ((table.rep_.index_block.NewIterator table.rep_.options.comparator).Seek k).Valid
      = true := by
    simp [Iterator.Valid, hcur]
  have hval : ((table.rep_.index_block.NewIterator table.rep_.options.comparator).Seek k).value
      = e.2 := by
    simp [Iterator.value, hcur]
  obtain ⟨c, evs, h1, h2, h3, h4⟩ := BlockReader_of_dataBlock ext table options e.2 sys b hb hcoh
  rw [InternalGet_fetch ext table options k sys hv (by rw [hval]; exact hf), hval, hst, h1]
  have hbst : ((b.NewIterator table.rep_.options.comparator).RegisterCleanup c).status
      = Status.OK := by
    simp [Block.NewIterator, hbok, Iterator.RegisterCleanup]
  have hbcl : ((b.NewIterator table.rep_.options.comparator).RegisterCleanup c).cleanup
      = [c] := by
    simp [Iterator.RegisterCleanup]
  have hbcur : (((b.NewIterator table.rep_.options.comparator).RegisterCleanup c).Seek k).current
      = b.entries.find? (fun x => decide (0 ≤ table.rep_.options.comparator x.1 k)) := by
    simp [Block.NewIterator, hbok, Iterator.RegisterCleanup, Iterator.Seek]
  generalize (b.NewIterator table.rep_.options.comparator).RegisterCleanup c = it
    at hbst hbcl hbcur
  refine ⟨by simp [hbst, Status.ok], ?_⟩
  simp only []
  cases hfind : b.entries.find? (fun x => decide (0 ≤ table.rep_.options.comparator x.1 k)) with
  | none =>
    have hlog : ((it.Seek k).delete
        (if (it.Seek k).Valid
          then saver (it.Seek k).key (it.Seek k).value (BlockReader ext table options e.2 sys).2
          else (BlockReader ext table options e.2 sys).2)).log
        = sys.log ++ (evs ++ [c.event]) := by
      simp [Iterator.Valid, hbcur, hfind, hbcl, h2]
    rw [since_of_log hlog]
    simp [h3, h4]
  | some x =>
    have hlog : ((it.Seek k).delete
        (if (it.Seek k).Valid
          then saver (it.Seek k).key (it.Seek k).value (BlockReader ext table options e.2 sys).2
          else (BlockReader ext table options e.2 sys).2)).log
        = sys.log ++ (evs ++ [Event.Saver x.1 x.2, c.event]) := by
      simp [Iterator.Valid, Iterator.key, Iterator.value, hbcur, hfind, hbcl, h2, saver]
    rw [since_of_log hlog]
    have h5 : Event.isSaver (Event.Saver x.1 x.2) = true := rfl
    simp [h3, h4, h5]

/-! ### The bytewise order -/

theorem BytewiseComparator_refl (a : Slice) : BytewiseComparator a a = 0 := by
  induction a with
  | nil => rfl
  | cons x xs ih => simp [BytewiseComparator, ih]

theorem BytewiseComparator_antisymm (a : Slice) :
    ∀ b, BytewiseComparator a b < 0 ↔ 0 < BytewiseComparator b a := by
  induction a with
  | nil =>
    intro b
    cases b <;> simp [BytewiseComparator]
  | cons x xs ih =>
    intro b
    cases b with
    | nil => simp [BytewiseComparator]
    | cons y ys =>
      simp only [BytewiseComparator]
      by_cases h1 : x < y
      · have h2 : ¬ y < x := by omega
        simp [h1, h2]
      · by_cases h2 : y < x
        · simp [h1, h2]
        · simp only [h1, h2, if_false]
          exact ih ys

theorem BytewiseComparator_trans (a : Slice) :
    ∀ b c, BytewiseComparator a b ≤ 0 → BytewiseComparator b c ≤ 0 →
      BytewiseComparator a c ≤ 0 := by
  induction a with
  | nil =>
    intro b c _ _
    cases c <;> simp [BytewiseComparator]
  | cons x xs ih =>
    intro b c hab hbc
    cases b with
    | nil => simp [BytewiseComparator] at hab
    | cons y ys =>
      cases c with
      | nil => simp [BytewiseComparator] at hbc
      | cons z zs =>
        simp only [BytewiseComparator] at hab hbc ⊢
        by_cases hxy : x < y
        · by_cases hyz : y < z
          · have : x < z := by omega
            simp [this]
          · by_cases hzy : z < y
            · simp [hyz, hzy] at hbc
            · have : x < z := by omega
              simp [this]
        · by_cases hyx : y < x
          · simp [hxy, hyx] at hab
          · simp only [hxy, hyx, if_false] at hab
            by_cases hyz : y < z
            · have : x < z := by omega
              simp [this]
            · by_cases hzy : z < y
              · simp [hyz, hzy] at hbc
              · simp only [hyz, hzy, if_false] at hbc
                have h1 : ¬ x < z := by omega
                have h2 : ¬ z < x := by omega
                simp only [h1, h2, if_false]
                exact ih ys zs hab hbc

theorem BytewiseComparator_total : IsTotalOrder BytewiseComparator :=
  ⟨BytewiseComparator_refl, BytewiseComparator_antisymm, BytewiseComparator_trans⟩

/-! ### Round trip -/

theorem indexWellFormed_mem (ext : External) (table : Table) (options : ReadOptions)
    (es : List (Slice × Slice)) (hwf : indexWellFormed ext table options es = true)
    (e : Slice × Slice) (he : e ∈ es) :
    ∃ b, dataBlock ext table options e.2 = some b ∧ b.status.ok = true ∧
      strictlySorted table.rep_.options.comparator b.entries = true := by
  induction es with
  | nil => cases he
  | cons e0 rest ih =>
    obtain ⟨⟨b0, hb0, hok, hs, -⟩, -, hrest⟩ := indexWellFormed_cons ext table options e0 rest hwf
    rcases List.mem_cons.mp he with h | h
    · subst h
      exact ⟨b0, hb0, hok, hs⟩
    · exact ih hrest h

/-- C1, as the code has it: round trip of `Table::InternalGet` on a well-formed table whose cache
is coherent with the file. Assume the comparator is a total order, the index block is readable
and sorted, every index value locates a block that decodes, reads and is well formed, each data
block is strictly sorted with keys at most its index key and above the previous index key, the
filter has no false negative, and every block the cache holds under the key of this table and of
an index handle's offset is the block that handle locates. Then for every entry `(k, v)` of
every data block, whatever its position, `InternalGet(k)` returns OK and calls the sink exactly
once, with exactly `(k, v)`. -/
theorem InternalGet_round_trip (ext : External) (table : Table) (options : ReadOptions)
    (sys : Sys) (wf : WellFormed ext table options sys.cache)
    (e : Slice × Slice) (he : e ∈ table.rep_.index_block.entries) (b : Block)
    (hb : dataBlock ext table options e.2 = some b) (k v : Slice) (hkv : (k, v) ∈ b.entries) :
    (InternalGet ext table options k sys).1 = Status.OK ∧
    (Sys.since sys (InternalGet ext table options k sys).2).filter Event.isSaver
      = [Event.Saver k v] := by
  obtain ⟨e', hfind, he', hb'⟩ := index_seek ext table options wf.order
    table.rep_.index_block.entries wf.index e he b hb (k, v) hkv
  obtain ⟨b2, hb2, hok, hs⟩ := indexWellFormed_mem ext table options
    table.rep_.index_block.entries wf.index e' he'
  rw [hb'] at hb2
  cases hb2
  have hrej : filterRejects ext table e'.2 k = false := by
    cases hr : filterRejects ext table e'.2 k with
    | false => rfl
    | true =>
      obtain ⟨f, hf1, -, hf3⟩ := (filterRejects_iff ext table e'.2 k).mp hr
      have := wf.filter f hf1 e' he' b hb' (k, v) hkv
      rw [hf3] at this
      cases this
  have hcoh : table.rep_.options.block_cache = true → ∀ h,
      sys.cache.Lookup (cacheKey table.rep_.cache_id
        (ext.BlockHandleDecodeFrom e'.2).2.offset) = some h → h.value = b := by
    intro hc h hl
    have := wf.cache hc e' he' h hl
    rw [hb'] at this
    cases this
    rfl
  have := InternalGet_lookup ext table options k sys e' b wf.index_ok hfind hrej hb' hok hcoh
  rw [seek_strictlySorted wf.order b.entries hs (k, v) hkv] at this
  exact this

theorem sampleTable_wellFormed :
    WellFormed sampleExt (sampleTable true (some sampleFilter)) ReadOptions.default emptyCache where
  order := BytewiseComparator_total
  index_ok := by decide
  index := by decide
  filter := by
    intro filter hf e he b hb x hx
    have hf' : filter = sampleFilter := by
      simp only [sampleTable] at hf
      cases hf
      rfl
    subst hf'
    have he' : e = ([20], [0, 6]) ∨ e = ([40], [6, 6]) := by
      simpa [sampleTable] using he
    rcases he' with h | h
    · subst h
      have h0 : dataBlock sampleExt (sampleTable true (some sampleFilter)) ReadOptions.default
          [0, 6] = some { entries := [([10], [1, 1]), ([20], [2, 2])], status := Status.OK,
                          size := 6 } := by decide
      rw [h0] at hb
      cases hb
      have hx' : x = ([10], [1, 1]) ∨ x = ([20], [2, 2]) := by simpa using hx
      rcases hx' with h | h <;> subst h <;> decide
    · subst h
      have h0 : dataBlock sampleExt (sampleTable true (some sampleFilter)) ReadOptions.default
          [6, 6] = some { entries := [([30], [3, 3]), ([40], [4, 4])], status := Status.OK,
                          size := 6 } := by decide
      rw [h0] at hb
      cases hb
      have hx' : x = ([30], [3, 3]) ∨ x = ([40], [4, 4]) := by simpa using hx
      rcases hx' with h | h <;> subst h <;> decide
  cache := by
    intro _ e _ h hl
    simp [emptyCache, Cache.Lookup] at hl

/-- Witness of C1 as amended: on the sample table, with a filter and a cache, the lookup of key 40 (the last
entry of the last data block) returns OK and calls the sink once, with `(40, 4 4)`. -/
theorem InternalGet_round_trip_witness :
    (WellFormed sampleExt (sampleTable true (some sampleFilter)) ReadOptions.default
        (Sys.start emptyCache).cache ∧
      ([40], [6, 6]) ∈ (sampleTable true (some sampleFilter)).rep_.index_block.entries ∧
      dataBlock sampleExt (sampleTable true (some sampleFilter)) ReadOptions.default [6, 6]
        = some { entries := [([30], [3, 3]), ([40], [4, 4])], status := Status.OK, size := 6 } ∧
      (([40], [4, 4]) : Slice × Slice) ∈ [(([30], [3, 3]) : Slice × Slice), ([40], [4, 4])]) ∧
    ((InternalGet sampleExt (sampleTable true (some sampleFilter)) ReadOptions.default [40]
        (Sys.start emptyCache)).1 = Status.OK ∧
    (Sys.since (Sys.start emptyCache)
        (InternalGet sampleExt (sampleTable true (some sampleFilter)) ReadOptions.default [40]
          (Sys.start emptyCache)).2).filter Event.isSaver = [Event.Saver [40] [4, 4]]) :=
  ⟨⟨sampleTable_wellFormed, by decide, by decide, by decide⟩,
    InternalGet_round_trip sampleExt (sampleTable true (some sampleFilter)) ReadOptions.default
      (Sys.start emptyCache) sampleTable_wellFormed ([40], [6, 6]) (by decide)
      { entries := [([30], [3, 3]), ([40], [4, 4])], status := Status.OK, size := 6 }
      (by decide) [40] [4, 4] (by decide)⟩

/-- C1 refuted as stated: the table `Open` returns for `aliasBytes` (bytewise order, no filter, a
block cache, starting from an empty cache) meets every assumption the claim lists: the index
block is readable and sorted, every index value decodes and its block reads, each data block is
strictly sorted with keys at most its index key and above the previous index key. Its index has
an entry `50 ↦ (0, 0)`, an empty block at the offset of the first data block. Right after `Open`
the lookup of the stored key 10 delivers `(10, 1 1)`. After the table's own lookup of 45, which
caches the empty block under the key of offset 0, the lookup of 10 returns OK with no sink call:
the cache is then no longer coherent with the file. -/
theorem round_trip_fails_on_shared_offset :
    (aliasOpen.1 = Status.OK ∧ aliasOpen.2.1.isSome = true ∧
      aliasTable.rep_.index_block.status.ok = true ∧
      indexWellFormed sampleExt aliasTable ReadOptions.default
        aliasTable.rep_.index_block.entries = true ∧
      aliasTable.rep_.filter = none ∧
      (([10], [1, 1]) : Slice × Slice) ∈ tableEntries sampleExt aliasTable ReadOptions.default ∧
      (Sys.since aliasOpen.2.2
        (InternalGet sampleExt aliasTable ReadOptions.default [10] aliasOpen.2.2).2).filter
          Event.isSaver = [Event.Saver [10] [1, 1]] ∧
      (InternalGet sampleExt aliasTable ReadOptions.default [10]
        (InternalGet sampleExt aliasTable ReadOptions.default [45] aliasOpen.2.2).2).1
          = Status.OK ∧
      (Sys.since (InternalGet sampleExt aliasTable ReadOptions.default [45] aliasOpen.2.2).2
        (InternalGet sampleExt aliasTable ReadOptions.default [10]
          (InternalGet sampleExt aliasTable ReadOptions.default [45] aliasOpen.2.2).2).2).filter
          Event.isSaver = []) ∧
    IsTotalOrder aliasTable.rep_.options.comparator ∧
    FilterSound sampleExt aliasTable ReadOptions.default ∧
    CacheCoherent sampleExt aliasTable ReadOptions.default aliasOpen.2.2.cache ∧
    ¬ CacheCoherent sampleExt aliasTable ReadOptions.default
      (InternalGet sampleExt aliasTable ReadOptions.default [45] aliasOpen.2.2).2.cache := by
  refine ⟨by decide, BytewiseComparator_total, ?_, ?_, ?_⟩
  · intro filter hf
    have : aliasTable.rep_.filter = none := by decide
    rw [this] at hf
    cases hf
  · intro _ e _ h hl
    have hc : aliasOpen.2.2.cache.table = [] := by decide
    simp [Cache.Lookup, hc] at hl
  · intro hcoh
    have h := hcoh (by decide) ([20], [0, 6]) (by decide)
      { key := cacheKey 1 0, value := { entries := [], status := Status.OK, size := 0 } }
      (by decide)
    revert h
    decide

/-! ### Negative lookup -/

theorem CacheCoherent_empty (ext : External) (table : Table) (options : ReadOptions) (n : Nat) :
    CacheCoherent ext table options { table := [], last_id := n } := by
  intro _ e _ h hl
  simp [Cache.Lookup] at hl

theorem BlockReader_cache_dataBlock (ext : External) (table : Table) (options : ReadOptions)
    (index_value : Slice) (sys : Sys) :
    (BlockReader ext table options index_value sys).2.cache = sys.cache ∨
    ∃ b, dataBlock ext table options index_value = some b ∧
      (BlockReader ext table options index_value sys).2.cache =
        (sys.cache.Insert (cacheKey table.rep_.cache_id
          (ext.BlockHandleDecodeFrom index_value).2.offset) b).2 := by
  cases hd : (ext.BlockHandleDecodeFrom index_value).1.ok with
  | false => left; rw [BlockReader_decode_fails _ _ _ _ _ hd]
  | true =>
    cases hr : (ext.ReadBlock table.rep_.file options
            (ext.BlockHandleDecodeFrom index_value).2).1.ok with
    | false =>
      cases hc : table.rep_.options.block_cache with
      | false => left; rw [BlockReader_nocache_fails _ _ _ _ _ hd hc hr]
      | true =>
        cases hl : sys.cache.Lookup (cacheKey table.rep_.cache_id
            (ext.BlockHandleDecodeFrom index_value).2.offset) with
        | some h => left; rw [BlockReader_hit _ _ _ _ _ hd hc h hl]
        | none => left; rw [BlockReader_miss_fails _ _ _ _ _ hd hc hl hr]
    | true =>
      cases hc : table.rep_.options.block_cache with
      | false => left; rw [BlockReader_nocache_ok _ _ _ _ _ hd hc hr]
      | true =>
        cases hl : sys.cache.Lookup (cacheKey table.rep_.cache_id
            (ext.BlockHandleDecodeFrom index_value).2.offset) with
        | some h => left; rw [BlockReader_hit _ _ _ _ _ hd hc h hl]
        | none =>
          cases hf : ((ext.ReadBlock table.rep_.file options
            (ext.BlockHandleDecodeFrom index_value).2).2.cachable && options.fill_cache) with
          | false => left; rw [BlockReader_miss_keep _ _ _ _ _ hd hc hl hr hf]
          | true =>
            right
            rw [BlockReader_miss_insert _ _ _ _ _ hd hc hl hr hf]
            exact ⟨_, by simp [dataBlock, hd, hr], rfl⟩

/-- A lookup keeps the cache coherent with the file, provided two index entries whose handles
give the same cache key locate the same block (as they do when block offsets are distinct). So
coherence holds in every state reached from an empty cache by lookups on the table. -/
theorem CacheCoherent_InternalGet (ext : External) (table : Table) (options : ReadOptions)
    (k : Slice) (sys : Sys) (hcoh : CacheCoherent ext table options sys.cache)
    (huniq : ∀ e ∈ table.rep_.index_block.entries, ∀ e' ∈ table.rep_.index_block.entries,
      cacheKey table.rep_.cache_id (ext.BlockHandleDecodeFrom e.2).2.offset
        = cacheKey table.rep_.cache_id (ext.BlockHandleDecodeFrom e'.2).2.offset →
      dataBlock ext table options e.2 = dataBlock ext table options e'.2) :
    CacheCoherent ext table options (InternalGet ext table options k sys).2.cache := by
  cases hv : ((table.rep_.index_block.NewIterator table.rep_.options.comparator).Seek k).Valid with
  | false => rw [InternalGet_invalid ext table options k sys hv]; exact hcoh
  | true =>
    cases hf : filterRejects ext table
        ((table.rep_.index_block.NewIterator table.rep_.options.comparator).Seek k).value k with
    | true => rw [InternalGet_rejected ext table options k sys hv hf]; exact hcoh
    | false =>
      rw [InternalGet_fetch ext table options k sys hv hf]
      simp only [delete_cache]
      have hmem : ∃ e ∈ table.rep_.index_block.entries,
          ((table.rep_.index_block.NewIterator table.rep_.options.comparator).Seek k).value
            = e.2 := by
        cases hcur : ((table.rep_.index_block.NewIterator
            table.rep_.options.comparator).Seek k).current with
        | none => simp [Iterator.Valid, hcur] at hv
        | some e =>
          refine ⟨e, ?_, by simp [Iterator.value, hcur]⟩
          unfold Block.NewIterator NewErrorIterator Iterator.Seek at hcur
          split at hcur
          · exact List.mem_of_find?_eq_some hcur
          · simp at hcur
      obtain ⟨es, hes, hval⟩ := hmem
      rw [hval]
      have hcache : ∀ s : Sys, (if ((BlockReader ext table options es.2 sys).1.Seek k).Valid
          then saver ((BlockReader ext table options es.2 sys).1.Seek k).key
            ((BlockReader ext table options es.2 sys).1.Seek k).value s else s).cache
          = s.cache := by
        intro s
        split <;> simp [saver]
      rw [hcache]
      rcases BlockReader_cache_dataBlock ext table options es.2 sys with h | ⟨b, hb, h⟩
      · rw [h]; exact hcoh
      · rw [h]
        intro hc e he hd hl
        by_cases hk : cacheKey table.rep_.cache_id (ext.BlockHandleDecodeFrom e.2).2.offset
            = cacheKey table.rep_.cache_id (ext.BlockHandleDecodeFrom es.2).2.offset
        · rw [hk, Lookup_Insert_same] at hl
          cases hl
          rw [huniq e he es hes hk, hb]
        · rw [Lookup_Insert_ne _ _ _ _ hk] at hl
          exact hcoh hc e he hd hl

end leveldb
